import Mathlib

/-!
Verification of the gold-dataset-editor edit-session and change-propagation
engine against its specification.  The Python sources are shallowly embedded:
JSON values become an inductive `Json` type, Python dicts become ordered
association lists with Python's `get`/`pop`/assignment semantics, and the
stateful session is threaded explicitly.  Wall-clock timestamps carried by
history entries are abstracted away (no property below concerns them).
-/

namespace GoldEditor

/-- JSON values as produced by `json.loads` in `storage/reader.py`: records are
one JSON object per line.  Numbers are modelled as integers (the only numeric
field the engine inspects is the millisecond timestamp `ts_ms`). -/
inductive Json : Type where
  | null : Json
  | bool (b : Bool) : Json
  | num (n : Int) : Json
  | str (s : String) : Json
  | arr (elems : List Json) : Json
  | obj (fields : List (String × Json)) : Json
deriving Repr, Inhabited

mutual
/-- Decidable equality on JSON values (the derive handler does not support
nested inductives, so it is spelled out). -/
def decEqJson : (a b : Json) → Decidable (a = b)
  | Json.null, Json.null => isTrue rfl
  | Json.bool a, Json.bool b =>
      if h : a = b then isTrue (by rw [h])
      else isFalse (fun he => h (by cases he; rfl))
  | Json.num a, Json.num b =>
      if h : a = b then isTrue (by rw [h])
      else isFalse (fun he => h (by cases he; rfl))
  | Json.str a, Json.str b =>
      if h : a = b then isTrue (by rw [h])
      else isFalse (fun he => h (by cases he; rfl))
  | Json.arr xs, Json.arr ys =>
      match decEqJsonList xs ys with
      | isTrue h => isTrue (by rw [h])
      | isFalse h => isFalse (fun he => h (by cases he; rfl))
  | Json.obj xs, Json.obj ys =>
      match decEqJsonFields xs ys with
      | isTrue h => isTrue (by rw [h])
      | isFalse h => isFalse (fun he => h (by cases he; rfl))
  | Json.null, Json.bool _ => isFalse (fun h => Json.noConfusion h)
  | Json.null, Json.num _ => isFalse (fun h => Json.noConfusion h)
  | Json.null, Json.str _ => isFalse (fun h => Json.noConfusion h)
  | Json.null, Json.arr _ => isFalse (fun h => Json.noConfusion h)
  | Json.null, Json.obj _ => isFalse (fun h => Json.noConfusion h)
  | Json.bool _, Json.null => isFalse (fun h => Json.noConfusion h)
  | Json.bool _, Json.num _ => isFalse (fun h => Json.noConfusion h)
  | Json.bool _, Json.str _ => isFalse (fun h => Json.noConfusion h)
  | Json.bool _, Json.arr _ => isFalse (fun h => Json.noConfusion h)
  | Json.bool _, Json.obj _ => isFalse (fun h => Json.noConfusion h)
  | Json.num _, Json.null => isFalse (fun h => Json.noConfusion h)
  | Json.num _, Json.bool _ => isFalse (fun h => Json.noConfusion h)
  | Json.num _, Json.str _ => isFalse (fun h => Json.noConfusion h)
  | Json.num _, Json.arr _ => isFalse (fun h => Json.noConfusion h)
  | Json.num _, Json.obj _ => isFalse (fun h => Json.noConfusion h)
  | Json.str _, Json.null => isFalse (fun h => Json.noConfusion h)
  | Json.str _, Json.bool _ => isFalse (fun h => Json.noConfusion h)
  | Json.str _, Json.num _ => isFalse (fun h => Json.noConfusion h)
  | Json.str _, Json.arr _ => isFalse (fun h => Json.noConfusion h)
  | Json.str _, Json.obj _ => isFalse (fun h => Json.noConfusion h)
  | Json.arr _, Json.null => isFalse (fun h => Json.noConfusion h)
  | Json.arr _, Json.bool _ => isFalse (fun h => Json.noConfusion h)
  | Json.arr _, Json.num _ => isFalse (fun h => Json.noConfusion h)
  | Json.arr _, Json.str _ => isFalse (fun h => Json.noConfusion h)
  | Json.arr _, Json.obj _ => isFalse (fun h => Json.noConfusion h)
  | Json.obj _, Json.null => isFalse (fun h => Json.noConfusion h)
  | Json.obj _, Json.bool _ => isFalse (fun h => Json.noConfusion h)
  | Json.obj _, Json.num _ => isFalse (fun h => Json.noConfusion h)
  | Json.obj _, Json.str _ => isFalse (fun h => Json.noConfusion h)
  | Json.obj _, Json.arr _ => isFalse (fun h => Json.noConfusion h)

/-- Decidable equality on lists of JSON values. -/
def decEqJsonList : (xs ys : List Json) → Decidable (xs = ys)
  | [], [] => isTrue rfl
  | [], _ :: _ => isFalse (fun h => List.noConfusion h)
  | _ :: _, [] => isFalse (fun h => List.noConfusion h)
  | x :: xs, y :: ys =>
      match decEqJson x y, decEqJsonList xs ys with
      | isTrue h1, isTrue h2 => isTrue (by rw [h1, h2])
      | isFalse h1, _ => isFalse (fun he => h1 (by cases he; rfl))
      | _, isFalse h2 => isFalse (fun he => h2 (by cases he; rfl))

/-- Decidable equality on JSON object field lists. -/
def decEqJsonFields :
    (xs ys : List (String × Json)) → Decidable (xs = ys)
  | [], [] => isTrue rfl
  | [], _ :: _ => isFalse (fun h => List.noConfusion h)
  | _ :: _, [] => isFalse (fun h => List.noConfusion h)
  | (k, v) :: xs, (k2, v2) :: ys =>
      if hk : k = k2 then
        match decEqJson v v2, decEqJsonFields xs ys with
        | isTrue h1, isTrue h2 => isTrue (by rw [hk, h1, h2])
        | isFalse h1, _ => isFalse (fun he => h1 (by cases he; rfl))
        | _, isFalse h2 => isFalse (fun he => h2 (by cases he; rfl))
      else isFalse (fun he => hk (by cases he; rfl))
end

instance : DecidableEq Json := decEqJson

/-- Lookup of a key in a Python dict, modelled on the ordered association
list (first occurrence; Python dicts have unique keys). -/
def dictGet? (kvs : List (String × Json)) (k : String) : Option Json :=
  match kvs with
  | [] => none
  | (k', v) :: rest => if k' = k then some v else dictGet? rest k

/-- Python `d.get(k)`: `None` when the key is absent. -/
def pyGet (kvs : List (String × Json)) (k : String) : Json :=
  (dictGet? kvs k).getD Json.null

/-- Python `d.get(k, default)`. -/
def pyGetD (kvs : List (String × Json)) (k : String) (d : Json) : Json :=
  (dictGet? kvs k).getD d

/-- Python `d[k] = v`: replace the value in place when the key is present
(keeping its position), append otherwise. -/
def dictSet (kvs : List (String × Json)) (k : String) (v : Json) :
    List (String × Json) :=
  match kvs with
  | [] => [(k, v)]
  | (k', v') :: rest =>
      if k' = k then (k, v) :: rest else (k', v') :: dictSet rest k v

/-- Python `d.pop(k, None)`: drop the key when present.  (On the unique-key
dicts the code manipulates this is exactly one removal.) -/
def dictPop (kvs : List (String × Json)) (k : String) : List (String × Json) :=
  match kvs with
  | [] => []
  | (k', v) :: rest =>
      if k' = k then dictPop rest k else (k', v) :: dictPop rest k

/-- Python `k in d`. -/
def dictContains (kvs : List (String × Json)) (k : String) : Bool :=
  (dictGet? kvs k).isSome

/-- One dataset record as `read_jsonl` parses it: a JSON object, i.e. a
Python dict. -/
abbrev Entry := List (String × Json)

mutual
/-- `_remove_nulls` from `storage/cleaner.py`: recursively remove `None`
values from nested data; dicts drop `None`-valued keys, lists drop `None`
elements, scalars pass through. -/
def removeNulls : Json → Json
  | Json.obj kvs => Json.obj (removeNullsFields kvs)
  | Json.arr xs => Json.arr (removeNullsElems xs)
  | Json.null => Json.null
  | Json.bool b => Json.bool b
  | Json.num n => Json.num n
  | Json.str s => Json.str s

/-- Dict branch of `_remove_nulls`: the comprehension
filtering on the value being non-`None` and recursing on kept values. -/
def removeNullsFields : List (String × Json) → List (String × Json)
  | [] => []
  | (k, v) :: rest =>
      if v = Json.null then removeNullsFields rest
      else (k, removeNulls v) :: removeNullsFields rest

/-- List branch of `_remove_nulls`. -/
def removeNullsElems : List Json → List Json
  | [] => []
  | v :: rest =>
      if v = Json.null then removeNullsElems rest
      else removeNulls v :: removeNullsElems rest
end

/-- First phase of `clean_entry` in `storage/cleaner.py` (after the deep copy,
which value semantics renders implicit): pop `qa_hint`, then, when `gold` is
a dict, pop `evidence` inside it. -/
def dropHintAndEvidence (entry : List (String × Json)) :
    List (String × Json) :=
  match dictGet? (dictPop entry "qa_hint") "gold" with
  | some (Json.obj g) =>
      dictSet (dictPop entry "qa_hint") "gold" (Json.obj (dictPop g "evidence"))
  | _ => dictPop entry "qa_hint"

/-- `clean_entry` from `storage/cleaner.py`: drop `qa_hint` and
`gold.evidence`, then strip nulls recursively.  An entry is a JSON object,
so the top level is a field list. -/
def clean_entry (entry : List (String × Json)) : List (String × Json) :=
  removeNullsFields (dropHintAndEvidence entry)

mutual
/-- No `None`-valued key in any object and no `None` element in any array,
at any nesting depth. -/
def noNulls : Json → Bool
  | Json.obj kvs => noNullsFields kvs
  | Json.arr xs => noNullsElems xs
  | _ => true

/-- Object-fields case of `noNulls`. -/
def noNullsFields : List (String × Json) → Bool
  | [] => true
  | (_, v) :: rest => (v != Json.null) && noNulls v && noNullsFields rest

/-- Array-elements case of `noNulls`. -/
def noNullsElems : List Json → Bool
  | [] => true
  | v :: rest => (v != Json.null) && noNulls v && noNullsElems rest
end

mutual
/-- The scalar values sitting at the leaves of a JSON tree, in document
order; containers contribute their members' leaves. -/
def leaves : Json → List Json
  | Json.obj kvs => leavesFields kvs
  | Json.arr xs => leavesElems xs
  | j => [j]

/-- Leaves of an object's field list. -/
def leavesFields : List (String × Json) → List Json
  | [] => []
  | (_, v) :: rest => leaves v ++ leavesFields rest

/-- Leaves of an array's element list. -/
def leavesElems : List Json → List Json
  | [] => []
  | v :: rest => leaves v ++ leavesElems rest
end

theorem dictGet?_dictPop_self (kvs : List (String × Json)) (k : String) :
    dictGet? (dictPop kvs k) k = none := by
  induction kvs with
  | nil => rfl
  | cons kv rest ih =>
      obtain ⟨k', v⟩ := kv
      by_cases h : k' = k
      · simpa [dictPop, h] using ih
      · simp [dictPop, dictGet?, h, ih]

theorem dictGet?_dictPop_ne (kvs : List (String × Json)) (k k2 : String)
    (h : k2 ≠ k) : dictGet? (dictPop kvs k) k2 = dictGet? kvs k2 := by
  induction kvs with
  | nil => rfl
  | cons kv rest ih =>
      obtain ⟨k', v⟩ := kv
      by_cases hk : k' = k
      · simp [dictPop, dictGet?, hk, Ne.symm h, ih]
      · by_cases hk2 : k' = k2
        · subst hk2
          simp [dictPop, dictGet?, hk]
        · simp [dictPop, dictGet?, hk, hk2, ih]

theorem dictGet?_dictSet_self (kvs : List (String × Json)) (k : String)
    (v : Json) : dictGet? (dictSet kvs k v) k = some v := by
  induction kvs with
  | nil => simp [dictSet, dictGet?]
  | cons kv rest ih =>
      obtain ⟨k', v'⟩ := kv
      by_cases h : k' = k
      · simp [dictSet, dictGet?, h]
      · simp [dictSet, dictGet?, h, ih]

theorem dictGet?_dictSet_ne (kvs : List (String × Json)) (k k2 : String)
    (v : Json) (h : k2 ≠ k) :
    dictGet? (dictSet kvs k v) k2 = dictGet? kvs k2 := by
  induction kvs with
  | nil => simp [dictSet, dictGet?, Ne.symm h]
  | cons kv rest ih =>
      obtain ⟨k', v'⟩ := kv
      by_cases hk : k' = k
      · simp [dictSet, dictGet?, hk, Ne.symm h]
      · by_cases hk2 : k' = k2
        · subst hk2
          simp [dictSet, dictGet?, hk]
        · simp [dictSet, dictGet?, hk, hk2, ih]

theorem dictGet?_removeNullsFields_none (kvs : List (String × Json))
    (k : String) (h : dictGet? kvs k = none) :
    dictGet? (removeNullsFields kvs) k = none := by
  induction kvs with
  | nil => rfl
  | cons kv rest ih =>
      obtain ⟨k', v⟩ := kv
      by_cases hk : k' = k
      · simp [dictGet?, hk] at h
      · simp [dictGet?, hk] at h
        by_cases hv : v = Json.null
        · simp [removeNullsFields, hv, ih h]
        · simp [removeNullsFields, dictGet?, hv, hk, ih h]

theorem dictGet?_removeNullsFields_first (kvs : List (String × Json))
    (k : String) (w : Json) (h : dictGet? kvs k = some w)
    (hw : w ≠ Json.null) :
    dictGet? (removeNullsFields kvs) k = some (removeNulls w) := by
  induction kvs with
  | nil => simp [dictGet?] at h
  | cons kv rest ih =>
      obtain ⟨k', v⟩ := kv
      by_cases hk : k' = k
      · simp [dictGet?, hk] at h
        subst h
        simp [removeNullsFields, hw, dictGet?, hk]
      · simp [dictGet?, hk] at h
        by_cases hv : v = Json.null
        · simp [removeNullsFields, hv, ih h]
        · simp [removeNullsFields, dictGet?, hv, hk, ih h]

/-- Keys can only disappear under the null strip, never appear. -/
theorem keys_removeNullsFields_sublist (kvs : List (String × Json)) :
    ((removeNullsFields kvs).map Prod.fst).Sublist (kvs.map Prod.fst) := by
  induction kvs with
  | nil => exact List.Sublist.refl _
  | cons kv rest ih =>
      obtain ⟨k', v⟩ := kv
      by_cases hv : v = Json.null
      · simpa [removeNullsFields, hv] using ih.cons k'
      · simpa [removeNullsFields, hv] using ih.cons₂ k'

theorem removeNulls_ne_null (v : Json) (h : v ≠ Json.null) :
    removeNulls v ≠ Json.null := by
  cases v <;> simp [removeNulls] at *

mutual
theorem noNulls_removeNulls : ∀ j : Json, noNulls (removeNulls j) = true
  | Json.obj kvs => by
      simpa [removeNulls, noNulls] using noNullsFields_removeNullsFields kvs
  | Json.arr xs => by
      simpa [removeNulls, noNulls] using noNullsElems_removeNullsElems xs
  | Json.null => rfl
  | Json.bool _ => rfl
  | Json.num _ => rfl
  | Json.str _ => rfl

theorem noNullsFields_removeNullsFields :
    ∀ kvs : List (String × Json), noNullsFields (removeNullsFields kvs) = true
  | [] => rfl
  | (k, v) :: rest => by
      by_cases hv : v = Json.null
      · simpa [removeNullsFields, hv] using noNullsFields_removeNullsFields rest
      · have hne : removeNulls v ≠ Json.null := removeNulls_ne_null v hv
        simp [removeNullsFields, hv, noNullsFields, hne,
          noNulls_removeNulls v, noNullsFields_removeNullsFields rest]

theorem noNullsElems_removeNullsElems :
    ∀ xs : List Json, noNullsElems (removeNullsElems xs) = true
  | [] => rfl
  | v :: rest => by
      by_cases hv : v = Json.null
      · simpa [removeNullsElems, hv] using noNullsElems_removeNullsElems rest
      · have hne : removeNulls v ≠ Json.null := removeNulls_ne_null v hv
        simp [removeNullsElems, hv, noNullsElems, hne,
          noNulls_removeNulls v, noNullsElems_removeNullsElems rest]
end

mutual
theorem leaves_removeNulls :
    ∀ j : Json, j ≠ Json.null →
      leaves (removeNulls j) = (leaves j).filter (fun x => x != Json.null)
  | Json.obj kvs, _ => by
      simpa [removeNulls, leaves] using leavesFields_removeNullsFields kvs
  | Json.arr xs, _ => by
      simpa [removeNulls, leaves] using leavesElems_removeNullsElems xs
  | Json.null, h => absurd rfl h
  | Json.bool _, _ => rfl
  | Json.num _, _ => rfl
  | Json.str _, _ => rfl

theorem leavesFields_removeNullsFields :
    ∀ kvs : List (String × Json),
      leavesFields (removeNullsFields kvs) =
        (leavesFields kvs).filter (fun x => x != Json.null)
  | [] => rfl
  | (k, v) :: rest => by
      by_cases hv : v = Json.null
      · subst hv
        simpa [removeNullsFields, leavesFields, leaves, List.filter] using
          leavesFields_removeNullsFields rest
      · simp [removeNullsFields, hv, leavesFields, List.filter_append,
          leaves_removeNulls v hv, leavesFields_removeNullsFields rest]

theorem leavesElems_removeNullsElems :
    ∀ xs : List Json,
      leavesElems (removeNullsElems xs) =
        (leavesElems xs).filter (fun x => x != Json.null)
  | [] => rfl
  | v :: rest => by
      by_cases hv : v = Json.null
      · subst hv
        simpa [removeNullsElems, leavesElems, leaves, List.filter] using
          leavesElems_removeNullsElems rest
      · simp [removeNullsElems, hv, leavesElems, List.filter_append,
          leaves_removeNulls v hv, leavesElems_removeNullsElems rest]
end

theorem dictGet?_eq_none_of_not_mem (kvs : List (String × Json)) (k : String)
    (h : k ∉ kvs.map Prod.fst) : dictGet? kvs k = none := by
  induction kvs with
  | nil => rfl
  | cons kv rest ih =>
      obtain ⟨k', v⟩ := kv
      simp only [List.map_cons, List.mem_cons] at h
      push_neg at h
      simp [dictGet?, Ne.symm h.1, ih h.2]

theorem dictGet?_isSome_of_mem (kvs : List (String × Json)) (k : String)
    (h : k ∈ kvs.map Prod.fst) : (dictGet? kvs k).isSome := by
  induction kvs with
  | nil => simp at h
  | cons kv rest ih =>
      obtain ⟨k', v⟩ := kv
      by_cases hk : k' = k
      · simp [dictGet?, hk]
      · simp only [List.map_cons, List.mem_cons] at h
        rcases h with h | h
        · exact absurd h.symm hk
        · simp [dictGet?, hk, ih h]

theorem keys_dictPop_sublist (kvs : List (String × Json)) (k : String) :
    ((dictPop kvs k).map Prod.fst).Sublist (kvs.map Prod.fst) := by
  induction kvs with
  | nil => exact List.Sublist.refl _
  | cons kv rest ih =>
      obtain ⟨k', v⟩ := kv
      by_cases h : k' = k
      · simpa [dictPop, h] using ih.cons k'
      · simpa [dictPop, h] using ih.cons₂ k'

theorem keys_dictSet (kvs : List (String × Json)) (k : String) (v : Json) :
    (dictSet kvs k v).map Prod.fst =
      if (dictGet? kvs k).isSome then kvs.map Prod.fst
      else kvs.map Prod.fst ++ [k] := by
  induction kvs with
  | nil => simp [dictSet, dictGet?]
  | cons kv rest ih =>
      obtain ⟨k', v'⟩ := kv
      by_cases hk : k' = k
      · simp [dictSet, dictGet?, hk]
      · simp only [dictSet, dictGet?, if_neg hk, List.map_cons, ih]
        split <;> simp

theorem nodup_keys_dictSet (kvs : List (String × Json)) (k : String)
    (v : Json) (hnd : (kvs.map Prod.fst).Nodup) :
    ((dictSet kvs k v).map Prod.fst).Nodup := by
  rw [keys_dictSet]
  split
  · exact hnd
  · next hne =>
      refine List.Nodup.append hnd (List.nodup_singleton k) ?_
      intro a ha hb
      simp only [List.mem_singleton] at hb
      subst hb
      exact hne (dictGet?_isSome_of_mem kvs a ha)

theorem dictGet?_removeNullsFields_null (kvs : List (String × Json))
    (k : String) (hnd : (kvs.map Prod.fst).Nodup)
    (h : dictGet? kvs k = some Json.null) :
    dictGet? (removeNullsFields kvs) k = none := by
  induction kvs with
  | nil => simp [dictGet?] at h
  | cons kv rest ih =>
      obtain ⟨k', v⟩ := kv
      simp only [List.map_cons, List.nodup_cons] at hnd
      by_cases hk : k' = k
      · simp [dictGet?, hk] at h
        subst hk
        have hnone : dictGet? rest k' = none :=
          dictGet?_eq_none_of_not_mem rest k' hnd.1
        simp [removeNullsFields, h, dictGet?_removeNullsFields_none rest k' hnone]
      · simp [dictGet?, hk] at h
        by_cases hv : v = Json.null
        · simp [removeNullsFields, hv, ih hnd.2 h]
        · simp [removeNullsFields, dictGet?, hv, hk, ih hnd.2 h]

theorem dropHintAndEvidence_eq_of_obj (entry : List (String × Json))
    (g0 : List (String × Json))
    (h : dictGet? (dictPop entry "qa_hint") "gold" = some (Json.obj g0)) :
    dropHintAndEvidence entry =
      dictSet (dictPop entry "qa_hint") "gold"
        (Json.obj (dictPop g0 "evidence")) := by
  unfold dropHintAndEvidence
  rw [h]

theorem dropHintAndEvidence_eq_of_none (entry : List (String × Json))
    (h : dictGet? (dictPop entry "qa_hint") "gold" = none) :
    dropHintAndEvidence entry = dictPop entry "qa_hint" := by
  unfold dropHintAndEvidence
  rw [h]

theorem dropHintAndEvidence_eq_of_nonobj (entry : List (String × Json))
    (w : Json) (h : dictGet? (dictPop entry "qa_hint") "gold" = some w)
    (hw : ∀ g0, w ≠ Json.obj g0) :
    dropHintAndEvidence entry = dictPop entry "qa_hint" := by
  unfold dropHintAndEvidence
  rw [h]
  cases w with
  | obj g0 => exact absurd rfl (hw g0)
  | null => rfl
  | bool b => rfl
  | num n => rfl
  | str s => rfl
  | arr xs => rfl

/-- Values in a `dropHintAndEvidence` result never hide a `qa_hint` key at
top level. -/
theorem dictGet?_dropHintAndEvidence_qa (entry : List (String × Json)) :
    dictGet? (dropHintAndEvidence entry) "qa_hint" = none := by
  cases hgold : dictGet? (dictPop entry "qa_hint") "gold" with
  | none =>
      rw [dropHintAndEvidence_eq_of_none entry hgold]
      exact dictGet?_dictPop_self entry "qa_hint"
  | some w =>
      cases w with
      | obj g0 =>
          rw [dropHintAndEvidence_eq_of_obj entry g0 hgold]
          rw [dictGet?_dictSet_ne _ _ _ _ (by decide)]
          exact dictGet?_dictPop_self entry "qa_hint"
      | null =>
          rw [dropHintAndEvidence_eq_of_nonobj entry _ hgold (by intro g0 h; cases h)]
          exact dictGet?_dictPop_self entry "qa_hint"
      | bool b =>
          rw [dropHintAndEvidence_eq_of_nonobj entry _ hgold (by intro g0 h; cases h)]
          exact dictGet?_dictPop_self entry "qa_hint"
      | num n =>
          rw [dropHintAndEvidence_eq_of_nonobj entry _ hgold (by intro g0 h; cases h)]
          exact dictGet?_dictPop_self entry "qa_hint"
      | str s =>
          rw [dropHintAndEvidence_eq_of_nonobj entry _ hgold (by intro g0 h; cases h)]
          exact dictGet?_dictPop_self entry "qa_hint"
      | arr xs =>
          rw [dropHintAndEvidence_eq_of_nonobj entry _ hgold (by intro g0 h; cases h)]
          exact dictGet?_dictPop_self entry "qa_hint"

/-- C4: `clean_entry` yields a record with no `qa_hint` key, no
`gold.evidence` key, and no null member at any depth, and the null-stripping
phase preserves every non-null leaf value (value and order) of the record
left after the two explicit removals.  (The Python function operates on a
deep copy, so the caller's record is untouched; the embedding is pure.)
The hypothesis is the Python-dict invariant that keys are unique. -/
theorem clean_entry_spec (entry : List (String × Json))
    (hnd : (entry.map Prod.fst).Nodup) :
    dictGet? (clean_entry entry) "qa_hint" = none ∧
    (∀ g, dictGet? (clean_entry entry) "gold" = some (Json.obj g) →
      dictGet? g "evidence" = none) ∧
    noNullsFields (clean_entry entry) = true ∧
    leavesFields (clean_entry entry) =
      (leavesFields (dropHintAndEvidence entry)).filter
        (fun x => x != Json.null) := by
  refine ⟨?_, ?_, noNullsFields_removeNullsFields _,
    leavesFields_removeNullsFields _⟩
  · exact dictGet?_removeNullsFields_none _ _
      (dictGet?_dropHintAndEvidence_qa entry)
  · intro g hg
    unfold clean_entry at hg
    cases hgold : dictGet? (dictPop entry "qa_hint") "gold" with
    | none =>
        rw [dropHintAndEvidence_eq_of_none entry hgold] at hg
        rw [dictGet?_removeNullsFields_none _ _ hgold] at hg
        exact Option.noConfusion hg
    | some w =>
        cases w with
        | obj g0 =>
            rw [dropHintAndEvidence_eq_of_obj entry g0 hgold] at hg
            have hset :
                dictGet? (dictSet (dictPop entry "qa_hint") "gold"
                  (Json.obj (dictPop g0 "evidence"))) "gold" =
                some (Json.obj (dictPop g0 "evidence")) :=
              dictGet?_dictSet_self _ _ _
            rw [dictGet?_removeNullsFields_first _ _ _ hset (by simp)] at hg
            simp only [removeNulls, Option.some.injEq, Json.obj.injEq] at hg
            rw [← hg]
            exact dictGet?_removeNullsFields_none _ _
              (dictGet?_dictPop_self g0 "evidence")
        | null =>
            rw [dropHintAndEvidence_eq_of_nonobj entry _ hgold
              (by intro g0 h; cases h)] at hg
            have hndp : ((dictPop entry "qa_hint").map Prod.fst).Nodup :=
              (keys_dictPop_sublist entry "qa_hint").nodup hnd
            rw [dictGet?_removeNullsFields_null _ _ hndp hgold] at hg
            exact Option.noConfusion hg
        | bool b =>
            rw [dropHintAndEvidence_eq_of_nonobj entry _ hgold
              (by intro g0 h; cases h)] at hg
            rw [dictGet?_removeNullsFields_first _ _ _ hgold (by simp)] at hg
            simp [removeNulls] at hg
        | num n =>
            rw [dropHintAndEvidence_eq_of_nonobj entry _ hgold
              (by intro g0 h; cases h)] at hg
            rw [dictGet?_removeNullsFields_first _ _ _ hgold (by simp)] at hg
            simp [removeNulls] at hg
        | str s =>
            rw [dropHintAndEvidence_eq_of_nonobj entry _ hgold
              (by intro g0 h; cases h)] at hg
            rw [dictGet?_removeNullsFields_first _ _ _ hgold (by simp)] at hg
            simp [removeNulls] at hg
        | arr xs =>
            rw [dropHintAndEvidence_eq_of_nonobj entry _ hgold
              (by intro g0 h; cases h)] at hg
            rw [dictGet?_removeNullsFields_first _ _ _ hgold (by simp)] at hg
            simp [removeNulls] at hg

/-- The record of the round-trip example in the spec: `qa_hint = "x"`,
`gold.evidence` a non-empty map, and a null-valued slot. -/
def exCleanInput : List (String × Json) :=
  [("id", Json.str "e1"),
   ("qa_hint", Json.str "x"),
   ("gold", Json.obj
     [("evidence", Json.obj [("a", Json.str "y")]),
      ("slots", Json.obj [("treatment", Json.null)])]),
   ("reviewed", Json.bool false)]

/-- Witness instantiating `clean_entry_spec` on the spec's round-trip
example record. -/
theorem clean_entry_spec_witness :
    dictGet? (clean_entry exCleanInput) "qa_hint" = none ∧
    dictGet? [("slots", Json.obj [])] "evidence" = none :=
  ⟨(clean_entry_spec exCleanInput (by decide)).1,
   (clean_entry_spec exCleanInput (by decide)).2.1
     [("slots", Json.obj [])] (by decide)⟩

theorem removeNullsFields_eq_filter_map (kvs : List (String × Json)) :
    removeNullsFields kvs =
      (kvs.filter (fun kv => kv.2 != Json.null)).map
        (fun kv => (kv.1, removeNulls kv.2)) := by
  induction kvs with
  | nil => rfl
  | cons kv rest ih =>
      obtain ⟨k, v⟩ := kv
      by_cases hv : v = Json.null
      · simp [removeNullsFields, hv, List.filter_cons, ih]
      · simp [removeNullsFields, hv, List.filter_cons, bne_iff_ne, ih]

theorem removeNullsElems_eq_filter_map (xs : List Json) :
    removeNullsElems xs =
      (xs.filter (fun x => x != Json.null)).map removeNulls := by
  induction xs with
  | nil => rfl
  | cons v rest ih =>
      by_cases hv : v = Json.null
      · simp [removeNullsElems, hv, List.filter_cons, ih]
      · simp [removeNullsElems, hv, List.filter_cons, bne_iff_ne, ih]

/-- C10: the null stripper removes exactly the members whose value is the
JSON null — dict members and list elements survive iff non-null and are
recursively cleaned, scalars (including `false`, `0`, and the empty string)
pass through unchanged — and a container whose members are all null
collapses to an empty container that itself stays in the output. -/
theorem removeNulls_only_exact_nulls :
    (∀ kvs, removeNulls (Json.obj kvs) =
      Json.obj ((kvs.filter (fun kv => kv.2 != Json.null)).map
        (fun kv => (kv.1, removeNulls kv.2)))) ∧
    (∀ xs, removeNulls (Json.arr xs) =
      Json.arr ((xs.filter (fun x => x != Json.null)).map removeNulls)) ∧
    (∀ b, removeNulls (Json.bool b) = Json.bool b) ∧
    (∀ n, removeNulls (Json.num n) = Json.num n) ∧
    (∀ s, removeNulls (Json.str s) = Json.str s) ∧
    removeNulls (Json.obj [("a", Json.obj [("b", Json.null)])]) =
      Json.obj [("a", Json.obj [])] ∧
    removeNulls (Json.obj
      [("f", Json.bool false), ("z", Json.num 0), ("e", Json.str ""),
       ("l", Json.arr []), ("o", Json.obj []), ("n", Json.null)]) =
      Json.obj
      [("f", Json.bool false), ("z", Json.num 0), ("e", Json.str ""),
       ("l", Json.arr []), ("o", Json.obj [])] := by
  refine ⟨?_, ?_, fun _ => rfl, fun _ => rfl, fun _ => rfl, by decide, by decide⟩
  · intro kvs
    rw [removeNulls, removeNullsFields_eq_filter_map]
  · intro xs
    rw [removeNulls, removeNullsElems_eq_filter_map]

/-- `EntryEdit` from `models/session.py`: one record of a single entry
edit.  The wall-clock `timestamp` field (a `datetime.now()` default) is
abstracted away; no verified property concerns it. -/
structure EntryEdit where
  file_path : String
  entry_index : Nat
  entry_id : Json
  field_path : String
  old_value : Json
  new_value : Json
deriving Repr, DecidableEq

/-- `EditSession` from `models/session.py`: unsaved overrides keyed by
`(str(file_path), entry_index)` in a Python (insertion-ordered) dict, the
undo history stack, and the history cap (default 100). -/
structure EditSession where
  unsaved_changes : List ((String × Nat) × Entry) := []
  undo_stack : List EntryEdit := []
  max_undo_history : Nat := 100
deriving Repr, DecidableEq

/-- Lookup in the unsaved-changes dict (`dict.get`). -/
def sessGet? (m : List ((String × Nat) × Entry)) (k : String × Nat) :
    Option Entry :=
  match m with
  | [] => none
  | (k', v) :: rest => if k' = k then some v else sessGet? rest k

/-- Assignment into the unsaved-changes dict (`d[key] = value`). -/
def sessSet (m : List ((String × Nat) × Entry)) (k : String × Nat)
    (v : Entry) : List ((String × Nat) × Entry) :=
  match m with
  | [] => [(k, v)]
  | (k', v') :: rest =>
      if k' = k then (k, v) :: rest else (k', v') :: sessSet rest k v

/-- `EditSession.record_change`: append the edit to the undo stack, evict
the oldest element when the cap is exceeded, then store the full modified
entry under `(file_path, entry_index)` (last write wins). -/
def EditSession.record_change (s : EditSession) (file_path : String)
    (entry_index : Nat) (entry_id : Json) (field_path : String)
    (old_value new_value : Json) (modified_entry : Entry) : EditSession :=
  let edit : EntryEdit :=
    ⟨file_path, entry_index, entry_id, field_path, old_value, new_value⟩
  let stack := s.undo_stack ++ [edit]
  let stack := if s.max_undo_history < stack.length then stack.drop 1 else stack
  { s with undo_stack := stack,
           unsaved_changes :=
             sessSet s.unsaved_changes (file_path, entry_index) modified_entry }

/-- `EditSession.mark_saved`: delete every unsaved key whose file component
matches; the undo stack is untouched. -/
def EditSession.mark_saved (s : EditSession) (file_path : String) :
    EditSession :=
  { s with unsaved_changes :=
      s.unsaved_changes.filter (fun kv => kv.1.1 ≠ file_path) }

/-- `EditSession.has_unsaved_changes`. -/
def EditSession.has_unsaved_changes (s : EditSession)
    (file_path : Option String) : Bool :=
  match file_path with
  | none => !s.unsaved_changes.isEmpty
  | some fp => s.unsaved_changes.any (fun kv => kv.1.1 = fp)

/-- `EditSession.get_unsaved_entry`. -/
def EditSession.get_unsaved_entry (s : EditSession) (file_path : String)
    (entry_index : Nat) : Option Entry :=
  sessGet? s.unsaved_changes (file_path, entry_index)

/-- `EditSession.clear`. -/
def EditSession.clear (s : EditSession) : EditSession :=
  { s with unsaved_changes := [], undo_stack := [] }

/-- C7: with the default cap of 100, the undo history never exceeds 100
entries after `record_change`; when the cap would be exceeded exactly the
oldest entry is dropped (the rest keep their order, the new edit is
appended), otherwise the new edit is simply appended; and `mark_saved`
never touches the history. -/
theorem undo_history_cap (s : EditSession) (h100 : s.max_undo_history = 100)
    (hlen : s.undo_stack.length ≤ 100) (fp : String) (idx : Nat)
    (eid : Json) (fpath : String) (ov nv : Json) (me : Entry) :
    (s.record_change fp idx eid fpath ov nv me).undo_stack.length ≤ 100 ∧
    (s.undo_stack.length < 100 →
      (s.record_change fp idx eid fpath ov nv me).undo_stack =
        s.undo_stack ++ [⟨fp, idx, eid, fpath, ov, nv⟩]) ∧
    (s.undo_stack.length = 100 →
      (s.record_change fp idx eid fpath ov nv me).undo_stack =
        s.undo_stack.tail ++ [⟨fp, idx, eid, fpath, ov, nv⟩]) ∧
    (s.mark_saved fp).undo_stack = s.undo_stack := by
  have hrec : (s.record_change fp idx eid fpath ov nv me).undo_stack =
      if s.max_undo_history < (s.undo_stack ++
          [(⟨fp, idx, eid, fpath, ov, nv⟩ : EntryEdit)]).length then
        (s.undo_stack ++ [(⟨fp, idx, eid, fpath, ov, nv⟩ : EntryEdit)]).drop 1
      else s.undo_stack ++ [(⟨fp, idx, eid, fpath, ov, nv⟩ : EntryEdit)] := rfl
  refine ⟨?_, ?_, ?_, rfl⟩
  · rw [hrec, h100]
    by_cases hl : 100 < s.undo_stack.length + 1
    · rw [if_pos (by simpa using hl)]
      simp
      omega
    · rw [if_neg (by simpa using hl)]
      simp
      omega
  · intro hlt
    rw [hrec, h100, if_neg (by simpa using Nat.not_lt.mpr hlt)]
  · intro heq
    rw [hrec, h100, if_pos (by simp [heq])]
    rw [List.drop_append_of_le_length (by omega), List.drop_one]

/-- Witness for `undo_history_cap` on an empty session. -/
theorem undo_history_cap_witness :
    (EditSession.record_change ⟨[], [], 100⟩ "f" 0 (Json.str "e") "p"
      Json.null Json.null []).undo_stack.length ≤ 100 :=
  (undo_history_cap ⟨[], [], 100⟩ rfl (by decide) "f" 0 (Json.str "e") "p"
    Json.null Json.null []).1

/-- File-system state: a path (as a component list) maps to the entry
sequence the file at that path holds, or to nothing when absent.  The JSONL
string serialization (`json.dumps` per line) is an external stdlib
collaborator, so a file's content is modelled as the entry sequence it
serializes. -/
def FS : Type := List String → Option (List Entry)

/-- Point update of a file-system state (create, overwrite or unlink). -/
def fsSet (fs : FS) (p : List String) (c : Option (List Entry)) : FS :=
  fun q => if q = p then c else fs q

/-- `write_jsonl_atomic` from `storage/writer.py`: create a fresh temporary
file via `mkstemp` in the destination's directory, stream the entries into
it, then `shutil.move` it onto the destination; on an exception at either
step the temporary file is unlinked (`missing_ok=True`) and the exception
propagates.  `tmpName` stands for the fresh name `mkstemp` picks, and the
two Booleans are the failure oracle for the two fallible steps (body write,
rename); `true` means that step raises.  Returns the final file system and
whether the call returned normally. -/
def write_jsonl_atomic (fs : FS) (dir : List String) (name tmpName : String)
    (entries : List Entry) (failWrite failMove : Bool) : FS × Bool :=
  let tmp := dir ++ [tmpName]
  let target := dir ++ [name]
  let fs1 := fsSet fs tmp (some [])
  if failWrite then
    (fsSet fs1 tmp none, false)
  else
    let fs2 := fsSet fs1 tmp (some entries)
    if failMove then
      (fsSet fs2 tmp none, false)
    else
      (fsSet (fsSet fs2 target (some entries)) tmp none, true)

/-- C5: the atomic writer serializes into a temporary file in the
destination's own directory and renames it into place; whenever any step
fails, the destination's prior content (or absence) is untouched and the
temporary artifact is gone, and on success the destination holds exactly
the written sequence with the temporary gone as well. -/
theorem write_jsonl_atomic_spec (fs : FS) (dir : List String)
    (name tmpName : String) (entries : List Entry)
    (failWrite failMove : Bool) (hne : tmpName ≠ name) :
    (dir ++ [tmpName]).dropLast = (dir ++ [name]).dropLast ∧
    ((write_jsonl_atomic fs dir name tmpName entries failWrite failMove).2 =
        false →
      (write_jsonl_atomic fs dir name tmpName entries failWrite
          failMove).1 (dir ++ [name]) = fs (dir ++ [name]) ∧
      (write_jsonl_atomic fs dir name tmpName entries failWrite
          failMove).1 (dir ++ [tmpName]) = none) ∧
    ((write_jsonl_atomic fs dir name tmpName entries failWrite failMove).2 =
        true →
      (write_jsonl_atomic fs dir name tmpName entries failWrite
          failMove).1 (dir ++ [name]) = some entries ∧
      (write_jsonl_atomic fs dir name tmpName entries failWrite
          failMove).1 (dir ++ [tmpName]) = none) := by
  have hpn : dir ++ [name] ≠ dir ++ [tmpName] := by
    intro h
    exact hne (by simpa using (List.append_cancel_left h).symm)
  refine ⟨by simp, ?_, ?_⟩ <;> intro hret <;>
    cases failWrite <;> cases failMove <;>
      simp_all [write_jsonl_atomic, fsSet, hpn]

/-- Witness for `write_jsonl_atomic_spec`: a failing body write on an empty
file system leaves the destination absent and no temporary behind. -/
theorem write_jsonl_atomic_spec_witness :
    (write_jsonl_atomic (fun _ => none) ["data"] "a.jsonl" "tmpXYZ.jsonl"
        [[]] true false).1 (["data"] ++ ["a.jsonl"]) =
      (fun (_ : List String) => (none : Option (List Entry)))
        (["data"] ++ ["a.jsonl"]) ∧
    (write_jsonl_atomic (fun _ => none) ["data"] "a.jsonl" "tmpXYZ.jsonl"
        [[]] true false).1 (["data"] ++ ["tmpXYZ.jsonl"]) = none :=
  (write_jsonl_atomic_spec (fun _ => none) ["data"] "a.jsonl" "tmpXYZ.jsonl"
    [[]] true false (by decide)).2.1 rfl

/-- `SaveResponse` from `api/entries.py`. -/
structure SaveResponse where
  success : Bool
  message : String
  backup_path : Option String := none
deriving Repr, DecidableEq

/-- The merge loop inside `save_file`: iterate the unsaved-changes dict in
insertion order and overwrite `entries[idx]` for every key of this file
whose index is within bounds. -/
def applyUnsaved (m : List ((String × Nat) × Entry)) (fp : String)
    (entries : List Entry) : List Entry :=
  match m with
  | [] => entries
  | ((p, idx), e) :: rest =>
      applyUnsaved rest fp
        (if p = fp ∧ idx < entries.length then entries.set idx e else entries)

/-- `save_file` from `api/entries.py` (the `/save` endpoint), with the I/O
boundary made explicit: `disk` is what `read_jsonl` returns for the file,
`relative_path`/`reviewed_path` are the strings the response interpolates,
and the third component of the result is the sequence handed to
`write_working_copy` (`none` when the endpoint returns without writing). -/
def save_file (file_path relative_path reviewed_path : String)
    (disk : List Entry) (s : EditSession) :
    SaveResponse × EditSession × Option (List Entry) :=
  if !(s.has_unsaved_changes (some file_path)) then
    ({ success := true, message := "No changes to save" }, s, none)
  else
    let entries := applyUnsaved s.unsaved_changes file_path disk
    ({ success := true, message := "Saved " ++ relative_path,
       backup_path := some reviewed_path },
     s.mark_saved file_path, some entries)

theorem has_unsaved_mark_saved (s : EditSession) (fp : String) :
    (s.mark_saved fp).has_unsaved_changes (some fp) = false := by
  unfold EditSession.mark_saved EditSession.has_unsaved_changes
  simp only [List.any_eq_false]
  intro kv hkv
  have := List.of_mem_filter hkv
  simpa using this

/-- C6: with no unsaved changes for the file, save-all is a no-op that
reports success with "No changes to save" and performs no write, leaving
the session untouched; consequently a second save-all immediately after any
save-all reports "No changes to save" and performs no write. -/
theorem save_file_idempotent (fp rp rvp : String) (disk disk2 : List Entry)
    (s : EditSession) :
    (s.has_unsaved_changes (some fp) = false →
      save_file fp rp rvp disk s =
        ({ success := true, message := "No changes to save" }, s, none)) ∧
    ((save_file fp rp rvp disk2
        (save_file fp rp rvp disk s).2.1).1.message = "No changes to save" ∧
      (save_file fp rp rvp disk2
        (save_file fp rp rvp disk s).2.1).2.2 = none ∧
      (save_file fp rp rvp disk2 (save_file fp rp rvp disk s).2.1).2.1 =
        (save_file fp rp rvp disk s).2.1) := by
  constructor
  · intro h
    simp [save_file, h]
  · by_cases h : s.has_unsaved_changes (some fp) = true
    · have hs1 : (save_file fp rp rvp disk s).2.1 = s.mark_saved fp := by
        simp [save_file, h]
      rw [hs1]
      simp [save_file, has_unsaved_mark_saved]
    · have hf : s.has_unsaved_changes (some fp) = false := by
        simpa using h
      have hs1 : (save_file fp rp rvp disk s).2.1 = s := by
        simp [save_file, hf]
      rw [hs1]
      simp [save_file, hf]

/-- Witness for `save_file_idempotent` on an empty session. -/
theorem save_file_idempotent_witness :
    save_file "f" "r" "v" [] ⟨[], [], 100⟩ =
      ({ success := true, message := "No changes to save" },
        (⟨[], [], 100⟩ : EditSession), none) :=
  (save_file_idempotent "f" "r" "v" [] [] ⟨[], [], 100⟩).1 (by decide)

/-- Python truthiness (`bool(x)`) on a JSON value. -/
def pyTruthy : Json → Bool
  | Json.null => false
  | Json.bool b => b
  | Json.num n => n != 0
  | Json.str s => s != ""
  | Json.arr xs => !xs.isEmpty
  | Json.obj kvs => !kvs.isEmpty

/-- `_get_message_ts` from `api/entries.py`: `message.get("ts_ms")` when
the message is a dict, else `None` (JSON null stands for Python `None`). -/
def getMessageTs (message : Json) : Json :=
  match message with
  | Json.obj kvs => pyGet kvs "ts_ms"
  | _ => Json.null

/-- Python `entry["message"]["role"] = new_role`: rewrite the role nested
under the `message` key (the guard before this assignment ensures the key
holds a dict whenever it runs). -/
def setMessageRole (entry : Entry) (r : Json) : Entry :=
  match dictGet? entry "message" with
  | some (Json.obj kvs) =>
      dictSet entry "message" (Json.obj (dictSet kvs "role" r))
  | _ => entry

/-- Python `entry["context"][i]["role"] = new_role` (guarded: `context` is
a list whose element `i` is a dict whenever it runs). -/
def setContextRole (entry : Entry) (i : Nat) (r : Json) : Entry :=
  match dictGet? entry "context" with
  | some (Json.arr xs) =>
      match xs.get? i with
      | some (Json.obj kvs) =>
          dictSet entry "context"
            (Json.arr (xs.set i (Json.obj (dictSet kvs "role" r))))
      | _ => entry
  | _ => entry

/-- The items Python's `enumerate(entry.get("context", []))` yields, as the
propagation loop sees them: a JSON array yields its elements; a missing key
yields nothing; a dict or a string would yield only non-dict items, which
the loop's `isinstance` guard skips, so they contribute nothing. -/
def ctxListOf (entry : Entry) : List Json :=
  match pyGetD entry "context" (Json.arr []) with
  | Json.arr xs => xs
  | _ => []

/-- Candidate main-message step of `_propagate_role_change`: on a dict
message with matching `ts_ms` and a differing role, assign the role and
route the change through the session. -/
def syncMain (fp : String) (idx : Nat) (ts newRole : Json)
    (s : EditSession) (entry : Entry) : EditSession × Entry × Bool :=
  match pyGetD entry "message" (Json.obj []) with
  | Json.obj kvs =>
      if pyGet kvs "ts_ms" = ts then
        let oldRole := pyGet kvs "role"
        if oldRole ≠ newRole then
          let e2 := setMessageRole entry newRole
          (s.record_change fp idx (pyGetD e2 "id" (Json.str ""))
            "message.role" oldRole newRole e2, e2, true)
        else (s, entry, false)
      else (s, entry, false)
  | _ => (s, entry, false)

/-- Candidate context loop of `_propagate_role_change`, iterating the bound
context sequence by index; `m` accumulates the candidate's modified flag. -/
def syncCtx (fp : String) (idx : Nat) (ts newRole : Json) :
    List Json → Nat → EditSession → Entry → Bool → EditSession × Entry × Bool
  | [], _, s, entry, m => (s, entry, m)
  | ctxMsg :: rest, i, s, entry, m =>
      match ctxMsg with
      | Json.obj kvs =>
          if pyGet kvs "ts_ms" = ts then
            let oldRole := pyGet kvs "role"
            if oldRole ≠ newRole then
              let e2 := setContextRole entry i newRole
              let s2 := s.record_change fp idx (pyGetD e2 "id" (Json.str ""))
                ("context[" ++ toString i ++ "].role") oldRole newRole e2
              syncCtx fp idx ts newRole rest (i + 1) s2 e2 true
            else syncCtx fp idx ts newRole rest (i + 1) s entry m
          else syncCtx fp idx ts newRole rest (i + 1) s entry m
      | _ => syncCtx fp idx ts newRole rest (i + 1) s entry m

/-- One candidate of the `_propagate_role_change` loop: the main-message
check followed by the context check, tallying whether the candidate was
modified. -/
def syncOneEntry (fp : String) (idx : Nat) (ts newRole : Json)
    (s : EditSession) (entry : Entry) : EditSession × Bool :=
  let r1 := syncMain fp idx ts newRole s entry
  let r2 := syncCtx fp idx ts newRole (ctxListOf r1.2.1) 0 r1.1 r1.2.1 r1.2.2
  (r2.1, r2.2.2)

/-- The candidate loop of `_propagate_role_change`: skip the source index,
resolve each candidate from the session (else a copy of the disk entry),
apply the sync steps, and count modified candidates. -/
def propagateAux (fp : String) (ts newRole : Json) (sourceIdx : Nat) :
    List Entry → Nat → EditSession → Nat → EditSession × Nat
  | [], _, s, count => (s, count)
  | diskEntry :: rest, idx, s, count =>
      if idx = sourceIdx then
        propagateAux fp ts newRole sourceIdx rest (idx + 1) s count
      else
        let entry := match s.get_unsaved_entry fp idx with
          | some e => e
          | none => diskEntry
        let r := syncOneEntry fp idx ts newRole s entry
        propagateAux fp ts newRole sourceIdx rest (idx + 1) r.1
          (if r.2 then count + 1 else count)

/-- `_propagate_role_change` from `api/entries.py`: value semantics stands
in for `disk_entry.copy()`; the in-place aliasing that the shallow copy
causes on the disk-read list is modelled separately by the reference-
semantics machine further below. -/
def propagate_role_change (fp : String) (entries : List Entry)
    (s : EditSession) (sourceIdx : Nat) (ts newRole : Json) :
    EditSession × Nat :=
  propagateAux fp ts newRole sourceIdx entries 0 s 0

/-- A message-shaped value that triggers a role update: a dict whose
`ts_ms` equals the join key and whose current role differs from the
target. -/
def msgMatches (msg ts newRole : Json) : Bool :=
  match msg with
  | Json.obj kvs => (pyGet kvs "ts_ms" == ts) && (pyGet kvs "role" != newRole)
  | _ => false

/-- Whether a candidate record would be modified by the propagation: its
main message or some context entry matches the join key with a differing
role. -/
def entryWouldChange (entry : Entry) (ts newRole : Json) : Bool :=
  msgMatches (pyGetD entry "message" (Json.obj [])) ts newRole ||
  (ctxListOf entry).any (fun c => msgMatches c ts newRole)

/-- The record a reader should see: session override if present, else the
disk record at that position. -/
def effectiveEntry (s : EditSession) (fp : String) (i : Nat)
    (entries : List Entry) : Entry :=
  match s.get_unsaved_entry fp i with
  | some e => e
  | none => entries.getD i []

/-- Number of candidates other than the source whose effective record
would be modified by the propagation. -/
def countWouldChange (fp : String) (src : Nat) (ts newRole : Json)
    (s : EditSession) : List Entry → Nat → Nat
  | [], _ => 0
  | d :: rest, i =>
      (if i ≠ src ∧ entryWouldChange
          (match s.get_unsaved_entry fp i with
           | some e => e
           | none => d) ts newRole = true then 1 else 0) +
      countWouldChange fp src ts newRole s rest (i + 1)

theorem sessGet?_sessSet_self (m : List ((String × Nat) × Entry))
    (k : String × Nat) (v : Entry) :
    sessGet? (sessSet m k v) k = some v := by
  induction m with
  | nil => simp [sessSet, sessGet?]
  | cons kv rest ih =>
      obtain ⟨k', v'⟩ := kv
      by_cases h : k' = k
      · simp [sessSet, sessGet?, h]
      · simp [sessSet, sessGet?, h, ih]

theorem sessGet?_sessSet_ne (m : List ((String × Nat) × Entry))
    (k k2 : String × Nat) (v : Entry) (h : k2 ≠ k) :
    sessGet? (sessSet m k v) k2 = sessGet? m k2 := by
  induction m with
  | nil => simp [sessSet, sessGet?, Ne.symm h]
  | cons kv rest ih =>
      obtain ⟨k', v'⟩ := kv
      by_cases hk : k' = k
      · simp [sessSet, sessGet?, hk, Ne.symm h]
      · by_cases hk2 : k' = k2
        · subst hk2
          simp [sessSet, sessGet?, hk]
        · simp [sessSet, sessGet?, hk, hk2, ih]

theorem get_unsaved_record_change_self (s : EditSession) (fp : String)
    (idx : Nat) (eid : Json) (fpath : String) (ov nv : Json) (me : Entry) :
    (s.record_change fp idx eid fpath ov nv me).get_unsaved_entry fp idx =
      some me := by
  unfold EditSession.record_change EditSession.get_unsaved_entry
  exact sessGet?_sessSet_self _ _ _

theorem get_unsaved_record_change_ne (s : EditSession) (fp : String)
    (idx : Nat) (eid : Json) (fpath : String) (ov nv : Json) (me : Entry)
    (fp2 : String) (j : Nat) (h : (fp2, j) ≠ (fp, idx)) :
    (s.record_change fp idx eid fpath ov nv me).get_unsaved_entry fp2 j =
      s.get_unsaved_entry fp2 j := by
  unfold EditSession.record_change EditSession.get_unsaved_entry
  exact sessGet?_sessSet_ne _ _ _ _ h

theorem pyGet_dictSet_self (kvs : List (String × Json)) (k : String)
    (v : Json) : pyGet (dictSet kvs k v) k = v := by
  unfold pyGet
  rw [dictGet?_dictSet_self]
  rfl

theorem pyGet_dictSet_ne (kvs : List (String × Json)) (k k2 : String)
    (v : Json) (h : k2 ≠ k) : pyGet (dictSet kvs k v) k2 = pyGet kvs k2 := by
  unfold pyGet
  rw [dictGet?_dictSet_ne _ _ _ _ h]

theorem setMessageRole_get_ne (entry : Entry) (r : Json) (k : String)
    (h : k ≠ "message") :
    dictGet? (setMessageRole entry r) k = dictGet? entry k := by
  unfold setMessageRole
  cases hm : dictGet? entry "message" with
  | none => rfl
  | some w =>
      cases w with
      | obj kvs => exact dictGet?_dictSet_ne _ _ _ _ h
      | null => rfl
      | bool b => rfl
      | num n => rfl
      | str s => rfl
      | arr xs => rfl

theorem setContextRole_get_ne (entry : Entry) (i : Nat) (r : Json)
    (k : String) (h : k ≠ "context") :
    dictGet? (setContextRole entry i r) k = dictGet? entry k := by
  unfold setContextRole
  split
  · split
    · exact dictGet?_dictSet_ne _ _ _ _ h
    · rfl
  · rfl

theorem ctxListOf_setMessageRole (entry : Entry) (r : Json) :
    ctxListOf (setMessageRole entry r) = ctxListOf entry := by
  unfold ctxListOf pyGetD
  rw [setMessageRole_get_ne entry r "context" (by decide)]

theorem message_setContextRole (entry : Entry) (i : Nat) (r : Json) :
    dictGet? (setContextRole entry i r) "message" = dictGet? entry "message" :=
  setContextRole_get_ne entry i r "message" (by decide)

theorem ctxListOf_present_of_ne_nil (entry : Entry)
    (h : ctxListOf entry ≠ []) :
    dictGet? entry "context" = some (Json.arr (ctxListOf entry)) := by
  unfold ctxListOf pyGetD at *
  cases hc : dictGet? entry "context" with
  | none => simp [hc] at h
  | some w =>
      cases w with
      | arr xs => simp [hc]
      | null => simp [hc] at h
      | bool b => simp [hc] at h
      | num n => simp [hc] at h
      | str s => simp [hc] at h
      | obj kvs => simp [hc] at h

theorem ctxListOf_setContextRole (entry : Entry) (i : Nat) (r : Json)
    (kvs : List (String × Json))
    (hget : (ctxListOf entry).get? i = some (Json.obj kvs)) :
    ctxListOf (setContextRole entry i r) =
      (ctxListOf entry).set i (Json.obj (dictSet kvs "role" r)) := by
  have hne : ctxListOf entry ≠ [] := by
    intro h0
    rw [h0] at hget
    simp at hget
  have hc := ctxListOf_present_of_ne_nil entry hne
  unfold setContextRole
  split
  · rename_i xs hxs
    have hxe : xs = ctxListOf entry := by
      rw [hc] at hxs
      exact (Json.arr.inj (Option.some.inj hxs)).symm
    subst hxe
    split
    · rename_i kvs2 hkvs2
      rw [hget] at hkvs2
      injection hkvs2 with h2
      injection h2 with h3
      subst h3
      simp [ctxListOf, pyGetD, dictGet?_dictSet_self]
    · rename_i hno
      exact absurd hget (fun hq => hno kvs hq)
  · rename_i hno
    exact absurd hc (fun hq => hno (ctxListOf entry) hq)

theorem drop_set_succ {α : Type} (l : List α) (i : Nat) (a : α) :
    (l.set i a).drop (i + 1) = l.drop (i + 1) := by
  induction l generalizing i with
  | nil => rfl
  | cons x xs ih =>
      cases i with
      | zero => rfl
      | succ j => simpa using ih j

theorem get?_of_drop_cons {α : Type} (l : List α) (i : Nat) (a : α)
    (r : List α) (h : l.drop i = a :: r) : l.get? i = some a := by
  have h0 := List.get?_drop l i 0
  rw [h] at h0
  simpa using h0.symm

theorem drop_succ_of_drop_cons {α : Type} (l : List α) (i : Nat) (a : α)
    (r : List α) (h : l.drop i = a :: r) : l.drop (i + 1) = r := by
  have h1 : l.drop (i + 1) = (l.drop i).drop 1 := by
    rw [List.drop_drop]
  rw [h1, h]
  rfl

theorem lt_length_of_get?_some {α : Type} (l : List α) (i : Nat) (a : α)
    (h : l.get? i = some a) : i < l.length := by
  by_contra hc
  rw [List.get?_eq_none.mpr (by omega)] at h
  exact Option.noConfusion h

/-- The `old_role` value the main-message branch reads. -/
def mainOldRole (entry : Entry) : Json :=
  match pyGetD entry "message" (Json.obj []) with
  | Json.obj kvs => pyGet kvs "role"
  | _ => Json.null

theorem syncMain_eq (fp : String) (idx : Nat) (ts newRole : Json)
    (s : EditSession) (entry : Entry) :
    syncMain fp idx ts newRole s entry =
      if msgMatches (pyGetD entry "message" (Json.obj [])) ts newRole then
        (s.record_change fp idx
          (pyGetD (setMessageRole entry newRole) "id" (Json.str ""))
          "message.role" (mainOldRole entry) newRole
          (setMessageRole entry newRole),
         setMessageRole entry newRole, true)
      else (s, entry, false) := by
  unfold syncMain msgMatches mainOldRole
  cases hm : pyGetD entry "message" (Json.obj []) with
  | obj kvs =>
      by_cases hts2 : pyGet kvs "ts_ms" = ts
      · by_cases hr : pyGet kvs "role" = newRole
        · simp [hts2, hr]
        · simp [hts2, hr]
      · simp [hts2]
  | null => simp
  | bool b => simp
  | num n => simp
  | str s2 => simp
  | arr xs => simp

theorem syncMain_flag (fp : String) (idx : Nat) (ts newRole : Json)
    (s : EditSession) (entry : Entry) :
    (syncMain fp idx ts newRole s entry).2.2 =
      msgMatches (pyGetD entry "message" (Json.obj [])) ts newRole := by
  rw [syncMain_eq]
  cases hmm : msgMatches (pyGetD entry "message" (Json.obj [])) ts newRole with
  | true => simp [hmm]
  | false => simp [hmm]

theorem syncMain_sess_other (fp : String) (idx : Nat) (ts newRole : Json)
    (s : EditSession) (entry : Entry) (fp2 : String) (j : Nat)
    (h : (fp2, j) ≠ (fp, idx)) :
    ((syncMain fp idx ts newRole s entry).1).get_unsaved_entry fp2 j =
      s.get_unsaved_entry fp2 j := by
  rw [syncMain_eq]
  by_cases hm : msgMatches (pyGetD entry "message" (Json.obj [])) ts newRole = true
  · simp only [hm, if_pos]
    exact get_unsaved_record_change_ne _ _ _ _ _ _ _ _ _ _ h
  · simp [hm]

theorem syncMain_stored (fp : String) (idx : Nat) (ts newRole : Json)
    (s : EditSession) (entry : Entry) :
    (((syncMain fp idx ts newRole s entry).1).get_unsaved_entry fp idx =
        some (syncMain fp idx ts newRole s entry).2.1 ∧
      (syncMain fp idx ts newRole s entry).2.2 = true) ∨
    syncMain fp idx ts newRole s entry = (s, entry, false) := by
  rw [syncMain_eq]
  cases hmm : msgMatches (pyGetD entry "message" (Json.obj [])) ts newRole with
  | true =>
      rw [if_pos rfl]
      exact Or.inl ⟨get_unsaved_record_change_self _ _ _ _ _ _ _ _, rfl⟩
  | false =>
      rw [if_neg Bool.false_ne_true]
      exact Or.inr rfl

theorem pyGetD_obj_of_ts (entry : Entry) (kvs : List (String × Json))
    (ts : Json) (hts : ts ≠ Json.null)
    (hm : pyGetD entry "message" (Json.obj []) = Json.obj kvs)
    (htseq : pyGet kvs "ts_ms" = ts) :
    dictGet? entry "message" = some (Json.obj kvs) := by
  unfold pyGetD at hm
  cases hd : dictGet? entry "message" with
  | none =>
      rw [hd] at hm
      simp at hm
      subst hm
      exact absurd (by simpa [pyGet, dictGet?] using htseq.symm : ts = Json.null) hts
  | some w =>
      rw [hd] at hm
      simp at hm
      rw [hm]

theorem syncMain_post (fp : String) (idx : Nat) (ts newRole : Json)
    (s : EditSession) (entry : Entry) (hts : ts ≠ Json.null) :
    msgMatches (pyGetD (syncMain fp idx ts newRole s entry).2.1 "message"
      (Json.obj [])) ts newRole = false := by
  rw [syncMain_eq]
  by_cases hm : msgMatches (pyGetD entry "message" (Json.obj [])) ts newRole = true
  · simp only [hm, if_pos]
    cases hmsg : pyGetD entry "message" (Json.obj []) with
    | obj kvs =>
        rw [hmsg] at hm
        simp only [msgMatches, Bool.and_eq_true, beq_iff_eq, bne_iff_ne] at hm
        have hd := pyGetD_obj_of_ts entry kvs ts hts hmsg hm.1
        have hset : setMessageRole entry newRole =
            dictSet entry "message" (Json.obj (dictSet kvs "role" newRole)) := by
          unfold setMessageRole
          rw [hd]
        rw [hset]
        have hget2 : pyGetD (dictSet entry "message"
            (Json.obj (dictSet kvs "role" newRole))) "message" (Json.obj []) =
            Json.obj (dictSet kvs "role" newRole) := by
          unfold pyGetD
          rw [dictGet?_dictSet_self]
          rfl
        rw [hget2]
        simp [msgMatches, pyGet_dictSet_self,
          pyGet_dictSet_ne kvs "role" "ts_ms" newRole (by decide)]
    | null => rw [hmsg] at hm; simp [msgMatches] at hm
    | bool b => rw [hmsg] at hm; simp [msgMatches] at hm
    | num n => rw [hmsg] at hm; simp [msgMatches] at hm
    | str s2 => rw [hmsg] at hm; simp [msgMatches] at hm
    | arr xs => rw [hmsg] at hm; simp [msgMatches] at hm
  · simp only [Bool.not_eq_true] at hm
    simp [hm]

theorem syncCtx_sess_other (fp : String) (idx : Nat) (ts newRole : Json)
    (list : List Json) :
    ∀ (i : Nat) (s : EditSession) (entry : Entry) (m : Bool) (fp2 : String)
      (j : Nat), (fp2, j) ≠ (fp, idx) →
      ((syncCtx fp idx ts newRole list i s entry m).1).get_unsaved_entry fp2 j
        = s.get_unsaved_entry fp2 j := by
  induction list with
  | nil =>
      intro i s entry m fp2 j h
      rfl
  | cons c0 rest ih =>
      intro i s entry m fp2 j h
      cases c0 with
      | obj kvs =>
          simp only [syncCtx]
          by_cases hts2 : pyGet kvs "ts_ms" = ts
          · rw [if_pos hts2]
            by_cases hr : pyGet kvs "role" ≠ newRole
            · rw [if_pos hr]
              rw [ih (i + 1) _ _ true fp2 j h]
              exact get_unsaved_record_change_ne _ _ _ _ _ _ _ _ _ _ h
            · rw [if_neg hr]
              exact ih (i + 1) s entry m fp2 j h
          · rw [if_neg hts2]
            exact ih (i + 1) s entry m fp2 j h
      | null => exact ih (i + 1) s entry m fp2 j h
      | bool b => exact ih (i + 1) s entry m fp2 j h
      | num n => exact ih (i + 1) s entry m fp2 j h
      | str s2 => exact ih (i + 1) s entry m fp2 j h
      | arr xs => exact ih (i + 1) s entry m fp2 j h

theorem syncCtx_flag (fp : String) (idx : Nat) (ts newRole : Json)
    (list : List Json) :
    ∀ (i : Nat) (s : EditSession) (entry : Entry) (m : Bool),
      (syncCtx fp idx ts newRole list i s entry m).2.2 =
        (m || list.any (fun c => msgMatches c ts newRole)) := by
  induction list with
  | nil =>
      intro i s entry m
      simp [syncCtx]
  | cons c0 rest ih =>
      intro i s entry m
      cases c0 with
      | obj kvs =>
          simp only [syncCtx]
          by_cases hts2 : pyGet kvs "ts_ms" = ts
          · rw [if_pos hts2]
            by_cases hr : pyGet kvs "role" ≠ newRole
            · rw [if_pos hr]
              rw [ih]
              simp [msgMatches, hts2, hr]
            · rw [if_neg hr]
              rw [ih]
              simp only [not_not] at hr
              simp [msgMatches, hts2, hr]
          · rw [if_neg hts2]
            rw [ih]
            have hb : (pyGet kvs "ts_ms" == ts) = false :=
              beq_eq_false_iff_ne.mpr hts2
            simp [msgMatches, hb]
      | null =>
          rw [show syncCtx fp idx ts newRole (Json.null :: rest) i s entry m =
            syncCtx fp idx ts newRole rest (i + 1) s entry m from rfl, ih]
          simp [msgMatches]
      | bool b =>
          rw [show syncCtx fp idx ts newRole (Json.bool b :: rest) i s entry m =
            syncCtx fp idx ts newRole rest (i + 1) s entry m from rfl, ih]
          simp [msgMatches]
      | num n =>
          rw [show syncCtx fp idx ts newRole (Json.num n :: rest) i s entry m =
            syncCtx fp idx ts newRole rest (i + 1) s entry m from rfl, ih]
          simp [msgMatches]
      | str s2 =>
          rw [show syncCtx fp idx ts newRole (Json.str s2 :: rest) i s entry m =
            syncCtx fp idx ts newRole rest (i + 1) s entry m from rfl, ih]
          simp [msgMatches]
      | arr xs =>
          rw [show syncCtx fp idx ts newRole (Json.arr xs :: rest) i s entry m =
            syncCtx fp idx ts newRole rest (i + 1) s entry m from rfl, ih]
          simp [msgMatches]

theorem syncCtx_stored (fp : String) (idx : Nat) (ts newRole : Json)
    (list : List Json) :
    ∀ (i : Nat) (s : EditSession) (entry : Entry) (m : Bool),
      (((syncCtx fp idx ts newRole list i s entry m).1).get_unsaved_entry fp
          idx = some (syncCtx fp idx ts newRole list i s entry m).2.1 ∧
        (syncCtx fp idx ts newRole list i s entry m).2.2 = true) ∨
      syncCtx fp idx ts newRole list i s entry m = (s, entry, m) := by
  induction list with
  | nil =>
      intro i s entry m
      exact Or.inr rfl
  | cons c0 rest ih =>
      intro i s entry m
      cases c0 with
      | obj kvs =>
          simp only [syncCtx]
          by_cases hts2 : pyGet kvs "ts_ms" = ts
          · rw [if_pos hts2]
            by_cases hr : pyGet kvs "role" ≠ newRole
            · rw [if_pos hr]
              generalize hE : setContextRole entry i newRole = e2
              generalize hS : EditSession.record_change s fp idx
                (pyGetD e2 "id" (Json.str ""))
                ("context[" ++ toString i ++ "].role") (pyGet kvs "role")
                newRole e2 = s2
              rcases ih (i + 1) s2 e2 true with h | h
              · exact Or.inl h
              · rw [h]
                refine Or.inl ⟨?_, rfl⟩
                rw [← hS]
                exact get_unsaved_record_change_self _ _ _ _ _ _ _ _
            · rw [if_neg hr]
              exact ih (i + 1) s entry m
          · rw [if_neg hts2]
            exact ih (i + 1) s entry m
      | null => exact ih (i + 1) s entry m
      | bool b => exact ih (i + 1) s entry m
      | num n => exact ih (i + 1) s entry m
      | str s2 => exact ih (i + 1) s entry m
      | arr xs => exact ih (i + 1) s entry m

theorem msgMatches_roleSet (kvs : List (String × Json)) (ts newRole : Json) :
    msgMatches (Json.obj (dictSet kvs "role" newRole)) ts newRole = false := by
  simp [msgMatches, pyGet_dictSet_self]

theorem syncCtx_clean (fp : String) (idx : Nat) (ts newRole : Json)
    (list : List Json) :
    ∀ (i : Nat) (s : EditSession) (entry : Entry) (m : Bool),
      (ctxListOf entry).drop i = list →
      (∀ j c, j < i → (ctxListOf entry).get? j = some c →
        msgMatches c ts newRole = false) →
      msgMatches (pyGetD entry "message" (Json.obj [])) ts newRole = false →
      (msgMatches (pyGetD (syncCtx fp idx ts newRole list i s entry m).2.1
          "message" (Json.obj [])) ts newRole = false ∧
        ∀ j c,
          (ctxListOf (syncCtx fp idx ts newRole list i s entry m).2.1).get? j
            = some c → msgMatches c ts newRole = false) := by
  induction list with
  | nil =>
      intro i s entry m h1 h2 h3
      refine ⟨h3, ?_⟩
      intro j c hc
      replace hc : (ctxListOf entry).get? j = some c := hc
      by_cases hj : j < i
      · exact h2 j c hj hc
      · have hlen : (ctxListOf entry).length ≤ i := by
          have hl := congrArg List.length h1
          rw [List.length_drop] at hl
          simp at hl
          omega
        rw [List.get?_eq_none.mpr (by omega)] at hc
        exact Option.noConfusion hc
  | cons c0 rest ih =>
      intro i s entry m h1 h2 h3
      have hgeti : (ctxListOf entry).get? i = some c0 :=
        get?_of_drop_cons _ _ _ _ h1
      have hlt : i < (ctxListOf entry).length :=
        lt_length_of_get?_some _ _ _ hgeti
      have hdropsucc : (ctxListOf entry).drop (i + 1) = rest :=
        drop_succ_of_drop_cons _ _ _ _ h1
      cases c0 with
      | obj kvs =>
          simp only [syncCtx]
          by_cases hts2 : pyGet kvs "ts_ms" = ts
          · by_cases hr : pyGet kvs "role" ≠ newRole
            · rw [if_pos hts2, if_pos hr]
              have he2 : ctxListOf (setContextRole entry i newRole) =
                  (ctxListOf entry).set i
                    (Json.obj (dictSet kvs "role" newRole)) :=
                ctxListOf_setContextRole entry i newRole kvs hgeti
              apply ih (i + 1)
              · rw [he2, drop_set_succ, hdropsucc]
              · intro j c hj hc
                rw [he2] at hc
                by_cases hji : j = i
                · subst hji
                  rw [List.get?_set_eq_of_lt _ hlt] at hc
                  injection hc with hc2
                  subst hc2
                  exact msgMatches_roleSet kvs ts newRole
                · rw [List.get?_set_ne _ _ (fun he => hji he.symm)] at hc
                  exact h2 j c (by omega) hc
              · have hmp : pyGetD (setContextRole entry i newRole) "message"
                    (Json.obj []) = pyGetD entry "message" (Json.obj []) := by
                  unfold pyGetD
                  rw [message_setContextRole]
                rw [hmp]
                exact h3
            · rw [if_pos hts2, if_neg hr]
              apply ih (i + 1) s entry m hdropsucc ?_ h3
              intro j c hj hc
              by_cases hji : j = i
              · subst hji
                rw [hgeti] at hc
                injection hc with hc2
                subst hc2
                simp only [not_not] at hr
                simp [msgMatches, hr]
              · exact h2 j c (by omega) hc
          · rw [if_neg hts2]
            apply ih (i + 1) s entry m hdropsucc ?_ h3
            intro j c hj hc
            by_cases hji : j = i
            · subst hji
              rw [hgeti] at hc
              injection hc with hc2
              subst hc2
              have hb : (pyGet kvs "ts_ms" == ts) = false :=
                beq_eq_false_iff_ne.mpr hts2
              simp [msgMatches, hb]
            · exact h2 j c (by omega) hc
      | null =>
          apply ih (i + 1) s entry m hdropsucc ?_ h3
          intro j c hj hc
          by_cases hji : j = i
          · subst hji
            rw [hgeti] at hc
            injection hc with hc2
            subst hc2
            rfl
          · exact h2 j c (by omega) hc
      | bool b =>
          apply ih (i + 1) s entry m hdropsucc ?_ h3
          intro j c hj hc
          by_cases hji : j = i
          · subst hji
            rw [hgeti] at hc
            injection hc with hc2
            subst hc2
            rfl
          · exact h2 j c (by omega) hc
      | num n =>
          apply ih (i + 1) s entry m hdropsucc ?_ h3
          intro j c hj hc
          by_cases hji : j = i
          · subst hji
            rw [hgeti] at hc
            injection hc with hc2
            subst hc2
            rfl
          · exact h2 j c (by omega) hc
      | str s2 =>
          apply ih (i + 1) s entry m hdropsucc ?_ h3
          intro j c hj hc
          by_cases hji : j = i
          · subst hji
            rw [hgeti] at hc
            injection hc with hc2
            subst hc2
            rfl
          · exact h2 j c (by omega) hc
      | arr xs =>
          apply ih (i + 1) s entry m hdropsucc ?_ h3
          intro j c hj hc
          by_cases hji : j = i
          · subst hji
            rw [hgeti] at hc
            injection hc with hc2
            subst hc2
            rfl
          · exact h2 j c (by omega) hc

theorem syncOne_sess_other (fp : String) (idx : Nat) (ts newRole : Json)
    (s : EditSession) (entry : Entry) (fp2 : String) (j : Nat)
    (h : (fp2, j) ≠ (fp, idx)) :
    ((syncOneEntry fp idx ts newRole s entry).1).get_unsaved_entry fp2 j =
      s.get_unsaved_entry fp2 j := by
  simp only [syncOneEntry]
  rw [syncCtx_sess_other fp idx ts newRole
    (ctxListOf (syncMain fp idx ts newRole s entry).2.1) 0
    (syncMain fp idx ts newRole s entry).1
    (syncMain fp idx ts newRole s entry).2.1
    (syncMain fp idx ts newRole s entry).2.2 fp2 j h]
  exact syncMain_sess_other fp idx ts newRole s entry fp2 j h

theorem ctxListOf_syncMain (fp : String) (idx : Nat) (ts newRole : Json)
    (s : EditSession) (entry : Entry) :
    ctxListOf (syncMain fp idx ts newRole s entry).2.1 = ctxListOf entry := by
  rw [syncMain_eq]
  cases hmm : msgMatches (pyGetD entry "message" (Json.obj [])) ts newRole with
  | true =>
      rw [if_pos rfl]
      exact ctxListOf_setMessageRole entry newRole
  | false =>
      rw [if_neg Bool.false_ne_true]

theorem syncOne_flag (fp : String) (idx : Nat) (ts newRole : Json)
    (s : EditSession) (entry : Entry) :
    (syncOneEntry fp idx ts newRole s entry).2 =
      entryWouldChange entry ts newRole := by
  simp only [syncOneEntry]
  rw [syncCtx_flag, syncMain_flag, ctxListOf_syncMain]
  rfl

theorem syncOne_noop (fp : String) (idx : Nat) (ts newRole : Json)
    (s : EditSession) (entry : Entry)
    (h : (syncOneEntry fp idx ts newRole s entry).2 = false) :
    (syncOneEntry fp idx ts newRole s entry).1 = s := by
  simp only [syncOneEntry] at h ⊢
  rcases syncCtx_stored fp idx ts newRole
      (ctxListOf (syncMain fp idx ts newRole s entry).2.1) 0
      (syncMain fp idx ts newRole s entry).1
      (syncMain fp idx ts newRole s entry).2.1
      (syncMain fp idx ts newRole s entry).2.2 with ⟨_, hfl⟩ | heq
  · rw [hfl] at h
    exact Bool.noConfusion h
  · rw [heq] at h ⊢
    rcases syncMain_stored fp idx ts newRole s entry with ⟨_, hm1⟩ | heq2
    · rw [hm1] at h
      exact Bool.noConfusion h
    · rw [heq2]

theorem syncOne_clean (fp : String) (idx : Nat) (ts newRole : Json)
    (s : EditSession) (entry : Entry) (hts : ts ≠ Json.null)
    (h : (syncOneEntry fp idx ts newRole s entry).2 = true) :
    ∃ e2, ((syncOneEntry fp idx ts newRole s entry).1).get_unsaved_entry fp
        idx = some e2 ∧ entryWouldChange e2 ts newRole = false := by
  simp only [syncOneEntry] at h ⊢
  have hcl := syncCtx_clean fp idx ts newRole
    (ctxListOf (syncMain fp idx ts newRole s entry).2.1) 0
    (syncMain fp idx ts newRole s entry).1
    (syncMain fp idx ts newRole s entry).2.1
    (syncMain fp idx ts newRole s entry).2.2 rfl
    (fun j c hj _ => absurd hj (Nat.not_lt_zero j))
    (syncMain_post fp idx ts newRole s entry hts)
  refine ⟨(syncCtx fp idx ts newRole
      (ctxListOf (syncMain fp idx ts newRole s entry).2.1) 0
      (syncMain fp idx ts newRole s entry).1
      (syncMain fp idx ts newRole s entry).2.1
      (syncMain fp idx ts newRole s entry).2.2).2.1, ?_, ?_⟩
  · rcases syncCtx_stored fp idx ts newRole
        (ctxListOf (syncMain fp idx ts newRole s entry).2.1) 0
        (syncMain fp idx ts newRole s entry).1
        (syncMain fp idx ts newRole s entry).2.1
        (syncMain fp idx ts newRole s entry).2.2 with ⟨hst, _⟩ | heq
    · exact hst
    · rw [heq] at h ⊢
      rcases syncMain_stored fp idx ts newRole s entry with ⟨hst2, _⟩ | heq2
      · exact hst2
      · rw [heq2] at h
        exact Bool.noConfusion h
  · unfold entryWouldChange
    rw [hcl.1]
    simp only [Bool.false_or]
    rw [List.any_eq_false]
    intro c hcmem
    obtain ⟨j, hj⟩ := List.get?_of_mem hcmem
    rw [hcl.2 j c hj]
    exact Bool.false_ne_true

theorem countWouldChange_congr (fp : String) (src : Nat) (ts newRole : Json)
    (l : List Entry) :
    ∀ (i : Nat) (s1 s2 : EditSession),
      (∀ j, i ≤ j → s1.get_unsaved_entry fp j = s2.get_unsaved_entry fp j) →
      countWouldChange fp src ts newRole s1 l i =
        countWouldChange fp src ts newRole s2 l i := by
  induction l with
  | nil =>
      intro i s1 s2 h
      rfl
  | cons d rest ih =>
      intro i s1 s2 h
      simp only [countWouldChange]
      rw [h i (le_refl i), ih (i + 1) s1 s2 (fun j hj => h j (by omega))]

theorem propagateAux_sess_other (fp : String) (ts newRole : Json)
    (src : Nat) (l : List Entry) :
    ∀ (i : Nat) (s : EditSession) (count : Nat) (fp2 : String) (j : Nat),
      (fp2 ≠ fp ∨ j < i) →
      ((propagateAux fp ts newRole src l i s count).1).get_unsaved_entry fp2 j
        = s.get_unsaved_entry fp2 j := by
  induction l with
  | nil =>
      intro i s count fp2 j h
      rfl
  | cons d rest ih =>
      intro i s count fp2 j h
      simp only [propagateAux]
      by_cases hsrc : i = src
      · rw [if_pos hsrc]
        exact ih (i + 1) s count fp2 j (h.imp id (fun hlt => by omega))
      · rw [if_neg hsrc]
        rw [ih (i + 1) _ _ fp2 j (h.imp id (fun hlt => by omega))]
        apply syncOne_sess_other
        rcases h with h | h
        · intro he
          injection he with h1 h2
          exact h h1
        · intro he
          injection he with h1 h2
          omega

theorem propagateAux_count (fp : String) (ts newRole : Json) (src : Nat)
    (l : List Entry) :
    ∀ (i : Nat) (s : EditSession) (count : Nat),
      (propagateAux fp ts newRole src l i s count).2 =
        count + countWouldChange fp src ts newRole s l i := by
  induction l with
  | nil =>
      intro i s count
      simp [propagateAux, countWouldChange]
  | cons d rest ih =>
      intro i s count
      simp only [propagateAux, countWouldChange]
      by_cases hsrc : i = src
      · rw [if_pos hsrc, ih]
        have hno : ¬ (i ≠ src ∧ entryWouldChange
            (match s.get_unsaved_entry fp i with
             | some e => e
             | none => d) ts newRole = true) := fun hcon => hcon.1 hsrc
        rw [if_neg hno]
        omega
      · rw [if_neg hsrc, ih]
        have hcg := countWouldChange_congr fp src ts newRole rest (i + 1)
          ((syncOneEntry fp i ts newRole s
            (match s.get_unsaved_entry fp i with
             | some e => e
             | none => d)).1) s
          (fun j hj => syncOne_sess_other fp i ts newRole s _ fp j
            (fun he => by injection he with h1 h2; omega))
        rw [hcg, syncOne_flag]
        cases hwc : entryWouldChange
            (match s.get_unsaved_entry fp i with
             | some e => e
             | none => d) ts newRole with
        | true =>
            rw [if_pos rfl, if_pos ⟨hsrc, rfl⟩]
            omega
        | false =>
            rw [if_neg Bool.false_ne_true,
              if_neg (fun hcon => Bool.false_ne_true hcon.2)]
            omega

theorem propagateAux_clean (fp : String) (ts newRole : Json) (src : Nat)
    (hts : ts ≠ Json.null) (l : List Entry) :
    ∀ (i : Nat) (s : EditSession) (count : Nat) (j : Nat),
      i ≤ j → j < i + l.length → j ≠ src →
      entryWouldChange
        (match ((propagateAux fp ts newRole src l i s count).1).get_unsaved_entry
            fp j with
         | some e => e
         | none => l.getD (j - i) []) ts newRole = false := by
  induction l with
  | nil =>
      intro i s count j hij hjlt hjsrc
      simp at hjlt
      omega
  | cons d rest ih =>
      intro i s count j hij hjlt hjsrc
      simp only [propagateAux]
      by_cases hsrc : i = src
      · rw [if_pos hsrc]
        have hji : i + 1 ≤ j := by omega
        have hres := ih (i + 1) s count j hji (by simp at hjlt ⊢; omega) hjsrc
        have hidx : rest.getD (j - (i + 1)) [] = (d :: rest).getD (j - i) [] := by
          have : j - i = (j - (i + 1)) + 1 := by omega
          rw [this]
          rfl
        rw [hidx] at hres
        exact hres
      · rw [if_neg hsrc]
        by_cases hji : j = i
        · subst hji
          have hkey := propagateAux_sess_other fp ts newRole src rest (j + 1)
            ((syncOneEntry fp j ts newRole s
              (match s.get_unsaved_entry fp j with
               | some e => e
               | none => d)).1)
            (if (syncOneEntry fp j ts newRole s
              (match s.get_unsaved_entry fp j with
               | some e => e
               | none => d)).2 then count + 1 else count) fp j
            (Or.inr (by omega))
          rw [hkey]
          cases hfl : (syncOneEntry fp j ts newRole s
              (match s.get_unsaved_entry fp j with
               | some e => e
               | none => d)).2 with
          | true =>
              obtain ⟨e2, hstore, hclean⟩ := syncOne_clean fp j ts newRole s
                (match s.get_unsaved_entry fp j with
                 | some e => e
                 | none => d) hts hfl
              rw [hstore]
              exact hclean
          | false =>
              rw [syncOne_noop fp j ts newRole s _ hfl]
              have := syncOne_flag fp j ts newRole s
                (match s.get_unsaved_entry fp j with
                 | some e => e
                 | none => d)
              rw [hfl] at this
              have hd0 : (d :: rest).getD (j - j) [] = d := by simp
              rw [hd0]
              exact this.symm
        · have hji2 : i + 1 ≤ j := by omega
          have hres := ih (i + 1)
            ((syncOneEntry fp i ts newRole s
              (match s.get_unsaved_entry fp i with
               | some e => e
               | none => d)).1)
            (if (syncOneEntry fp i ts newRole s
              (match s.get_unsaved_entry fp i with
               | some e => e
               | none => d)).2 then count + 1 else count)
            j hji2 (by simp at hjlt ⊢; omega) hjsrc
          have hidx : rest.getD (j - (i + 1)) [] = (d :: rest).getD (j - i) [] := by
            have : j - i = (j - (i + 1)) + 1 := by omega
            rw [this]
            rfl
          rw [hidx] at hres
          exact hres

theorem countWouldChange_zero (fp : String) (src : Nat) (ts newRole : Json)
    (s : EditSession) (l : List Entry) :
    ∀ (i : Nat),
      (∀ j, i ≤ j → j < i + l.length → j ≠ src →
        entryWouldChange
          (match s.get_unsaved_entry fp j with
           | some e => e
           | none => l.getD (j - i) []) ts newRole = false) →
      countWouldChange fp src ts newRole s l i = 0 := by
  induction l with
  | nil =>
      intro i h
      rfl
  | cons d rest ih =>
      intro i h
      simp only [countWouldChange]
      by_cases hsrc : i = src
      · rw [if_neg (fun hcon => hcon.1 hsrc)]
        rw [ih (i + 1) ?_]
        intro j hij hjlt hjsrc
        have hres := h j (by omega) (by simp; omega) hjsrc
        have hidx : (d :: rest).getD (j - i) [] = rest.getD (j - (i + 1)) [] := by
          have : j - i = (j - (i + 1)) + 1 := by omega
          rw [this]
          rfl
        rw [hidx] at hres
        exact hres
      · have hd0 : (d :: rest).getD (i - i) [] = d := by simp
        have h0 := h i (le_refl i) (by simp) hsrc
        rw [hd0] at h0
        rw [if_neg (fun hcon => Bool.false_ne_true (h0 ▸ hcon.2))]
        rw [ih (i + 1) ?_]
        intro j hij hjlt hjsrc
        have hres := h j (by omega) (by simp; omega) hjsrc
        have hidx : (d :: rest).getD (j - i) [] = rest.getD (j - (i + 1)) [] := by
          have : j - i = (j - (i + 1)) + 1 := by omega
          rw [this]
          rfl
        rw [hidx] at hres
        exact hres

/-- Record 0 of the spec's propagation scenario: main message with
`ts_ms = 1000`, role `"client"`. -/
def scRec0 : Entry :=
  [("id", Json.str "a"),
   ("message", Json.obj
     [("role", Json.str "client"), ("text", Json.str "hi"),
      ("ts_ms", Json.num 1000)])]

/-- Record 1 of the scenario: shares `ts_ms = 1000` with record 0. -/
def scRec1 : Entry :=
  [("id", Json.str "b"),
   ("message", Json.obj
     [("role", Json.str "client"), ("text", Json.str "yo"),
      ("ts_ms", Json.num 1000)])]

/-- Record 2 of the scenario: a different timestamp. -/
def scRec2 : Entry :=
  [("id", Json.str "c"),
   ("message", Json.obj
     [("role", Json.str "client"), ("text", Json.str "zz"),
      ("ts_ms", Json.num 2000)])]

/-- Record 1 after the role propagation reached it. -/
def scRec1Synced : Entry :=
  [("id", Json.str "b"),
   ("message", Json.obj
     [("role", Json.str "brand"), ("text", Json.str "yo"),
      ("ts_ms", Json.num 1000)])]

/-- C2: `_propagate_role_change` returns exactly the number of candidates
other than the source whose effective record carries a message (main or
context) with the matching non-null `ts_ms` and a differing role — the
source is never counted and already-matching records contribute zero;
running the identical role change again on the resulting session yields a
count of zero; and in the two-records-sharing-`ts_ms` scenario the first
change yields count 1, updates the sibling's buffered role, and leaves the
unrelated record untouched. -/
theorem propagate_synced_count (fp : String) (entries : List Entry)
    (s : EditSession) (src : Nat) (ts newRole : Json)
    (hts : ts ≠ Json.null) :
    (propagate_role_change fp entries s src ts newRole).2 =
      countWouldChange fp src ts newRole s entries 0 ∧
    (propagate_role_change fp entries
      (propagate_role_change fp entries s src ts newRole).1 src ts
      newRole).2 = 0 ∧
    (propagate_role_change "f" [scRec0, scRec1, scRec2] ⟨[], [], 100⟩ 0
      (Json.num 1000) (Json.str "brand")).2 = 1 ∧
    ((propagate_role_change "f" [scRec0, scRec1, scRec2] ⟨[], [], 100⟩ 0
      (Json.num 1000) (Json.str "brand")).1).get_unsaved_entry "f" 1 =
      some scRec1Synced ∧
    ((propagate_role_change "f" [scRec0, scRec1, scRec2] ⟨[], [], 100⟩ 0
      (Json.num 1000) (Json.str "brand")).1).get_unsaved_entry "f" 2 =
      none := by
  refine ⟨?_, ?_, rfl, rfl, rfl⟩
  · unfold propagate_role_change
    rw [propagateAux_count]
    omega
  · unfold propagate_role_change
    rw [propagateAux_count]
    rw [countWouldChange_zero]
    intro j hij hjlt hjsrc
    have hres := propagateAux_clean fp ts newRole src hts entries 0 s 0 j
      (by omega) (by omega) hjsrc
    simpa using hres

/-- Witness for `propagate_synced_count` at the scenario arguments. -/
theorem propagate_synced_count_witness :
    (propagate_role_change "f" [scRec0, scRec1, scRec2] ⟨[], [], 100⟩ 0
      (Json.num 1000) (Json.str "brand")).2 =
      countWouldChange "f" 0 (Json.num 1000) (Json.str "brand")
        ⟨[], [], 100⟩ [scRec0, scRec1, scRec2] 0 :=
  (propagate_synced_count "f" [scRec0, scRec1, scRec2] ⟨[], [], 100⟩ 0
    (Json.num 1000) (Json.str "brand") (by decide)).1

/-- `EntryUpdate` from `models/entry.py`, the PATCH payload.  `slots` and
`evidence` are JSON maps iterated in insertion order; `context_updates` is
a list of raw dicts carrying `index` and `role`. -/
structure EntryUpdate where
  slots : Option (List (String × Json)) := none
  evidence : Option (List (String × Json)) := none
  intentions : Option (List String) := none
  qa_hint : Option String := none
  reviewed : Option Bool := none
  message_role : Option String := none
  context_updates : Option (List Entry) := none
deriving Repr, DecidableEq

/-- The `hair_removal_areas` transform inside the slots loop: a non-empty
string value for that slot becomes the list of trimmed non-empty
comma-separated parts. -/
def transformSlotValue (slot_name : String) (value : Json) : Json :=
  match value with
  | Json.str sv =>
      if slot_name = "hair_removal_areas" ∧ sv ≠ "" then
        Json.arr (((sv.splitOn ",").filter
          (fun v => v.trim ≠ "")).map (fun v => Json.str v.trim))
      else value
  | _ => value

/-- Python: when `gold` is missing, set it to a fresh empty dict. -/
def ensureGold (entry : Entry) : Entry :=
  if dictContains entry "gold" then entry
  else dictSet entry "gold" (Json.obj [])

/-- Python: when `entry["gold"]` lacks `key`, set it to a fresh empty dict.
On every Python path that reaches this, `gold` holds a dict; a malformed
non-dict `gold` would raise `TypeError` in Python and is left unchanged
here — the well-formedness hypotheses of the theorems exclude it. -/
def ensureGoldKey (entry : Entry) (key : String) : Entry :=
  match dictGet? entry "gold" with
  | some (Json.obj g) =>
      if dictContains g key then entry
      else dictSet entry "gold" (Json.obj (dictSet g key (Json.obj [])))
  | _ => entry

/-- Python `entry["gold"][sub][name] = v` (nested two-level assignment;
non-dict intermediates would raise in Python and are left unchanged). -/
def goldSubSet (entry : Entry) (sub name : String) (v : Json) : Entry :=
  match dictGet? entry "gold" with
  | some (Json.obj g) =>
      match dictGet? g sub with
      | some (Json.obj m) =>
          dictSet entry "gold"
            (Json.obj (dictSet g sub (Json.obj (dictSet m name v))))
      | _ => entry
  | _ => entry

/-- Python `entry["gold"][sub].get(name)`. -/
def goldSubGet (entry : Entry) (sub name : String) : Json :=
  match dictGet? entry "gold" with
  | some (Json.obj g) =>
      match dictGet? g sub with
      | some (Json.obj m) => pyGet m name
      | _ => Json.null
  | _ => Json.null

/-- Python `entry["gold"][k] = v`. -/
def goldSet (entry : Entry) (k : String) (v : Json) : Entry :=
  match dictGet? entry "gold" with
  | some (Json.obj g) => dictSet entry "gold" (Json.obj (dictSet g k v))
  | _ => entry

/-- Python `entry["gold"].get(k)`. -/
def goldGet (entry : Entry) (k : String) : Json :=
  match dictGet? entry "gold" with
  | some (Json.obj g) => pyGet g k
  | _ => Json.null

/-- One iteration of the slots loop in `patch_entry`: transform the value,
read the previous one, write it, and record the change. -/
def slotsStepS (fp : String) (index : Nat) (se : EditSession × Entry)
    (kv : String × Json) : EditSession × Entry :=
  let value := transformSlotValue kv.1 kv.2
  let old_value := goldSubGet se.2 "slots" kv.1
  let e2 := goldSubSet se.2 "slots" kv.1 value
  (se.1.record_change fp index (pyGetD e2 "id" (Json.str ""))
    ("gold.slots." ++ kv.1) old_value value e2, e2)

/-- The slots axis of `patch_entry`: lazily create `gold`/`gold.slots`,
then fold the per-slot step over the update map. -/
def applySlotsS (fp : String) (index : Nat) (upd : List (String × Json))
    (se : EditSession × Entry) : EditSession × Entry :=
  upd.foldl (slotsStepS fp index)
    (se.1, ensureGoldKey (ensureGold se.2) "slots")

/-- The entry-only effect of one slots-loop iteration. -/
def slotsStepP (e : Entry) (kv : String × Json) : Entry :=
  goldSubSet e "slots" kv.1 (transformSlotValue kv.1 kv.2)

/-- The entry-only effect of the slots axis. -/
def applySlotsP (upd : List (String × Json)) (e : Entry) : Entry :=
  upd.foldl slotsStepP (ensureGoldKey (ensureGold e) "slots")

/-- One iteration of the evidence loop in `patch_entry`. -/
def evidenceStepS (fp : String) (index : Nat) (se : EditSession × Entry)
    (kv : String × Json) : EditSession × Entry :=
  let old_value := goldSubGet se.2 "evidence" kv.1
  let e2 := goldSubSet se.2 "evidence" kv.1 kv.2
  (se.1.record_change fp index (pyGetD e2 "id" (Json.str ""))
    ("gold.evidence." ++ kv.1) old_value kv.2 e2, e2)

/-- The evidence axis of `patch_entry`. -/
def applyEvidenceS (fp : String) (index : Nat) (upd : List (String × Json))
    (se : EditSession × Entry) : EditSession × Entry :=
  upd.foldl (evidenceStepS fp index)
    (se.1, ensureGoldKey (ensureGold se.2) "evidence")

/-- The entry-only effect of one evidence-loop iteration. -/
def evidenceStepP (e : Entry) (kv : String × Json) : Entry :=
  goldSubSet e "evidence" kv.1 kv.2

/-- The entry-only effect of the evidence axis. -/
def applyEvidenceP (upd : List (String × Json)) (e : Entry) : Entry :=
  upd.foldl evidenceStepP (ensureGoldKey (ensureGold e) "evidence")

/-- The intentions axis of `patch_entry`: lazily create `gold`, whole-value
replace `gold.intentions`, record one change. -/
def applyIntentionsS (fp : String) (index : Nat) (ints : List String)
    (se : EditSession × Entry) : EditSession × Entry :=
  let e0 := ensureGold se.2
  let old_value := goldGet e0 "intentions"
  let e2 := goldSet e0 "intentions" (Json.arr (ints.map Json.str))
  (se.1.record_change fp index (pyGetD e2 "id" (Json.str ""))
    "gold.intentions" old_value (Json.arr (ints.map Json.str)) e2, e2)

/-- The entry-only effect of the intentions axis. -/
def applyIntentionsP (ints : List String) (e : Entry) : Entry :=
  goldSet (ensureGold e) "intentions" (Json.arr (ints.map Json.str))

/-- The qa-hint axis of `patch_entry`. -/
def applyQaHintS (fp : String) (index : Nat) (v : String)
    (se : EditSession × Entry) : EditSession × Entry :=
  let old_value := pyGet se.2 "qa_hint"
  let e2 := dictSet se.2 "qa_hint" (Json.str v)
  (se.1.record_change fp index (pyGetD e2 "id" (Json.str "")) "qa_hint"
    old_value (Json.str v) e2, e2)

/-- The reviewed axis of `patch_entry`. -/
def applyReviewedS (fp : String) (index : Nat) (b : Bool)
    (se : EditSession × Entry) : EditSession × Entry :=
  let old_value := pyGetD se.2 "reviewed" (Json.bool false)
  let e2 := dictSet se.2 "reviewed" (Json.bool b)
  (se.1.record_change fp index (pyGetD e2 "id" (Json.str "")) "reviewed"
    old_value (Json.bool b) e2, e2)

/-- Python: replace a missing or non-dict `message` with a fresh
`role/text/ts_ms` dict before the role write. -/
def ensureMessage (entry : Entry) (role : String) : Entry :=
  match dictGet? entry "message" with
  | some (Json.obj _) => entry
  | _ => dictSet entry "message" (Json.obj
      [("role", Json.str role), ("text", Json.str ""), ("ts_ms", Json.num 0)])

/-- The message-role axis of `patch_entry`: ensure a dict message, write
the role, record the change, then propagate when a `ts_ms` resolves. -/
def applyMessageRoleS (fp : String) (entries : List Entry) (index : Nat)
    (role : String) (se : EditSession × Entry) :
    EditSession × Entry × Nat :=
  let e0 := ensureMessage se.2 role
  let old_value := match pyGetD e0 "message" (Json.obj []) with
    | Json.obj kvs => pyGet kvs "role"
    | _ => Json.null
  let e2 := setMessageRole e0 (Json.str role)
  let s2 := se.1.record_change fp index (pyGetD e2 "id" (Json.str ""))
    "message.role" old_value (Json.str role) e2
  let ts := getMessageTs (pyGetD e2 "message" (Json.obj []))
  if ts ≠ Json.null then
    let r := propagate_role_change fp entries s2 index ts (Json.str role)
    (r.1, e2, r.2)
  else (s2, e2, 0)

/-- The entry-only effect of the message-role axis. -/
def applyMessageRoleP (role : String) (e : Entry) : Entry :=
  setMessageRole (ensureMessage e role) (Json.str role)

/-- Python `entry["context"][i].get("role")`. -/
def ctxElemRole (e : Entry) (i : Nat) : Json :=
  match (ctxListOf e).get? i with
  | some (Json.obj kvs) => pyGet kvs "role"
  | _ => Json.null

/-- One iteration of the context-updates loop: the update applies only when
an integer index is present, the role value is truthy, and the index is
within the current context bounds — otherwise it is silently skipped.  A
non-integer, non-null index would raise `TypeError` in Python and is
skipped here (the theorems' inputs carry integer indices). -/
def ctxUpdateStepS (fp : String) (entries : List Entry) (index : Nat)
    (acc : EditSession × Entry × Nat) (cu : Entry) :
    EditSession × Entry × Nat :=
  match pyGet cu "index" with
  | Json.num n =>
      if pyTruthy (pyGet cu "role") = true ∧ 0 ≤ n ∧
          n.toNat < (ctxListOf acc.2.1).length then
        let i := n.toNat
        let rolev := pyGet cu "role"
        let old_value := ctxElemRole acc.2.1 i
        let e2 := setContextRole acc.2.1 i rolev
        let s2 := acc.1.record_change fp index (pyGetD e2 "id" (Json.str ""))
          ("context[" ++ toString i ++ "].role") old_value rolev e2
        let ts := match (ctxListOf e2).get? i with
          | some c => getMessageTs c
          | none => Json.null
        if ts ≠ Json.null then
          let r := propagate_role_change fp entries s2 index ts rolev
          (r.1, e2, acc.2.2 + r.2)
        else (s2, e2, acc.2.2)
      else acc
  | _ => acc

/-- The context-updates axis of `patch_entry`. -/
def applyCtxUpdatesS (fp : String) (entries : List Entry) (index : Nat)
    (cus : List Entry) (acc : EditSession × Entry × Nat) :
    EditSession × Entry × Nat :=
  cus.foldl (ctxUpdateStepS fp entries index) acc

/-- The entry-only effect of one context update. -/
def ctxUpdateStepP (e : Entry) (cu : Entry) : Entry :=
  match pyGet cu "index" with
  | Json.num n =>
      if pyTruthy (pyGet cu "role") = true ∧ 0 ≤ n ∧
          n.toNat < (ctxListOf e).length then
        setContextRole e n.toNat (pyGet cu "role")
      else e
  | _ => e

/-- The entry-only effect of the context-updates axis. -/
def applyCtxUpdatesP (cus : List Entry) (e : Entry) : Entry :=
  cus.foldl ctxUpdateStepP e

/-- All update axes of `patch_entry` except the final context-updates loop,
in source order. -/
def patchAxesS (fp : String) (entries : List Entry) (index : Nat)
    (u : EntryUpdate) (s : EditSession) (entry : Entry) :
    EditSession × Entry × Nat :=
  let se := (s, entry)
  let se := match u.slots with
    | some upd => applySlotsS fp index upd se
    | none => se
  let se := match u.evidence with
    | some upd => applyEvidenceS fp index upd se
    | none => se
  let se := match u.intentions with
    | some ints => applyIntentionsS fp index ints se
    | none => se
  let se := match u.qa_hint with
    | some v => applyQaHintS fp index v se
    | none => se
  let se := match u.reviewed with
    | some b => applyReviewedS fp index b se
    | none => se
  match u.message_role with
  | some role => applyMessageRoleS fp entries index role se
  | none => (se.1, se.2, 0)

/-- `patch_entry` from `api/entries.py` (the PATCH endpoint after its
HTTP-level 404 guards, which are upstream plumbing): resolve the effective
entry (session override, else a copy of the disk entry), apply the update
axes in order — each change buffered in the session, role updates
triggering sibling propagation — and return the final session, the updated
entry, and the accumulated synced count. -/
def patch_entry (fp : String) (entries : List Entry) (index : Nat)
    (u : EntryUpdate) (s : EditSession) : EditSession × Entry × Nat :=
  let entry := match s.get_unsaved_entry fp index with
    | some e => e
    | none => entries.getD index []
  let r := patchAxesS fp entries index u s entry
  match u.context_updates with
  | some cus => applyCtxUpdatesS fp entries index cus r
  | none => r

/-- The pure record transform one PATCH performs on its target entry (the
session bookkeeping and sibling propagation projected away); the theorems
below prove it describes exactly the entry `patch_entry` produces. -/
def patchPure (u : EntryUpdate) (e : Entry) : Entry :=
  let e := match u.slots with
    | some upd => applySlotsP upd e
    | none => e
  let e := match u.evidence with
    | some upd => applyEvidenceP upd e
    | none => e
  let e := match u.intentions with
    | some ints => applyIntentionsP ints e
    | none => e
  let e := match u.qa_hint with
    | some v => dictSet e "qa_hint" (Json.str v)
    | none => e
  let e := match u.reviewed with
    | some b => dictSet e "reviewed" (Json.bool b)
    | none => e
  let e := match u.message_role with
    | some role => applyMessageRoleP role e
    | none => e
  match u.context_updates with
  | some cus => applyCtxUpdatesP cus e
  | none => e

theorem foldl_pair_snd {γ : Type}
    (stepS : (EditSession × Entry) → γ → EditSession × Entry)
    (stepP : Entry → γ → Entry)
    (hstep : ∀ se c, (stepS se c).2 = stepP se.2 c) (l : List γ) :
    ∀ se, (l.foldl stepS se).2 = l.foldl stepP se.2 := by
  induction l with
  | nil =>
      intro se
      rfl
  | cons c rest ih =>
      intro se
      rw [List.foldl_cons, List.foldl_cons, ih, hstep]

theorem applySlotsS_snd (fp : String) (index : Nat)
    (upd : List (String × Json)) (se : EditSession × Entry) :
    (applySlotsS fp index upd se).2 = applySlotsP upd se.2 := by
  unfold applySlotsS applySlotsP
  exact foldl_pair_snd _ _ (fun se2 c => rfl) upd _

theorem applyEvidenceS_snd (fp : String) (index : Nat)
    (upd : List (String × Json)) (se : EditSession × Entry) :
    (applyEvidenceS fp index upd se).2 = applyEvidenceP upd se.2 := by
  unfold applyEvidenceS applyEvidenceP
  exact foldl_pair_snd _ _ (fun se2 c => rfl) upd _

theorem applyIntentionsS_snd (fp : String) (index : Nat)
    (ints : List String) (se : EditSession × Entry) :
    (applyIntentionsS fp index ints se).2 = applyIntentionsP ints se.2 := rfl

theorem applyQaHintS_snd (fp : String) (index : Nat) (v : String)
    (se : EditSession × Entry) :
    (applyQaHintS fp index v se).2 = dictSet se.2 "qa_hint" (Json.str v) :=
  rfl

theorem applyReviewedS_snd (fp : String) (index : Nat) (b : Bool)
    (se : EditSession × Entry) :
    (applyReviewedS fp index b se).2 = dictSet se.2 "reviewed" (Json.bool b)
    := rfl

theorem applyMessageRoleS_snd (fp : String) (entries : List Entry)
    (index : Nat) (role : String) (se : EditSession × Entry) :
    (applyMessageRoleS fp entries index role se).2.1 =
      applyMessageRoleP role se.2 := by
  simp only [applyMessageRoleS, applyMessageRoleP]
  split
  · rfl
  · rfl

theorem ctxUpdateStepS_snd (fp : String) (entries : List Entry)
    (index : Nat) (acc : EditSession × Entry × Nat) (cu : Entry) :
    (ctxUpdateStepS fp entries index acc cu).2.1 =
      ctxUpdateStepP acc.2.1 cu := by
  simp only [ctxUpdateStepS, ctxUpdateStepP]
  split
  · rename_i n hn
    split
    · rename_i hcond
      split
      · rfl
      · rfl
    · rfl
  · rfl

theorem applyCtxUpdatesS_snd (fp : String) (entries : List Entry)
    (index : Nat) (cus : List Entry) :
    ∀ acc, (applyCtxUpdatesS fp entries index cus acc).2.1 =
      applyCtxUpdatesP cus acc.2.1 := by
  induction cus with
  | nil =>
      intro acc
      rfl
  | cons cu rest ih =>
      intro acc
      unfold applyCtxUpdatesS applyCtxUpdatesP at *
      rw [List.foldl_cons, List.foldl_cons, ih, ctxUpdateStepS_snd]

/-- The entry-only effect of the non-context axes, in source order. -/
def patchAxesP (u : EntryUpdate) (e : Entry) : Entry :=
  let e := match u.slots with
    | some upd => applySlotsP upd e
    | none => e
  let e := match u.evidence with
    | some upd => applyEvidenceP upd e
    | none => e
  let e := match u.intentions with
    | some ints => applyIntentionsP ints e
    | none => e
  let e := match u.qa_hint with
    | some v => dictSet e "qa_hint" (Json.str v)
    | none => e
  let e := match u.reviewed with
    | some b => dictSet e "reviewed" (Json.bool b)
    | none => e
  match u.message_role with
  | some role => applyMessageRoleP role e
  | none => e

theorem patchPure_eq_axes (u : EntryUpdate) (e : Entry) :
    patchPure u e = match u.context_updates with
      | some cus => applyCtxUpdatesP cus (patchAxesP u e)
      | none => patchAxesP u e := by
  obtain ⟨os, oe, oi, oq, orv, omr, oc⟩ := u
  cases os <;> cases oe <;> cases oi <;> cases oq <;> cases orv <;>
    cases omr <;> cases oc <;> rfl

theorem patchAxesS_snd (fp : String) (entries : List Entry) (index : Nat)
    (u : EntryUpdate) (s : EditSession) (entry : Entry) :
    (patchAxesS fp entries index u s entry).2.1 = patchAxesP u entry := by
  obtain ⟨os, oe, oi, oq, orv, omr, oc⟩ := u
  cases os <;> cases oe <;> cases oi <;> cases oq <;> cases orv <;>
    cases omr <;>
    simp [patchAxesS, patchAxesP, applySlotsS_snd, applyEvidenceS_snd,
      applyIntentionsS_snd, applyQaHintS_snd, applyReviewedS_snd,
      applyMessageRoleS_snd]

theorem patch_entry_entry (fp : String) (entries : List Entry)
    (index : Nat) (u : EntryUpdate) (s : EditSession) :
    (patch_entry fp entries index u s).2.1 =
      patchPure u (effectiveEntry s fp index entries) := by
  rw [patchPure_eq_axes]
  unfold patch_entry effectiveEntry
  cases hc : u.context_updates with
  | none => exact patchAxesS_snd fp entries index u s _
  | some cus =>
      rw [applyCtxUpdatesS_snd, patchAxesS_snd]

theorem propagateAux_sess_src (fp : String) (ts newRole : Json)
    (src : Nat) (l : List Entry) :
    ∀ (i : Nat) (s : EditSession) (count : Nat),
      ((propagateAux fp ts newRole src l i s count).1).get_unsaved_entry fp
        src = s.get_unsaved_entry fp src := by
  induction l with
  | nil =>
      intro i s count
      rfl
  | cons d rest ih =>
      intro i s count
      simp only [propagateAux]
      by_cases hsrc : i = src
      · rw [if_pos hsrc]
        exact ih (i + 1) s count
      · rw [if_neg hsrc]
        rw [ih (i + 1) _ _]
        apply syncOne_sess_other
        intro he
        injection he with h1 h2
        exact hsrc h2.symm

theorem propagate_sess_src (fp : String) (entries : List Entry)
    (s : EditSession) (src : Nat) (ts newRole : Json) :
    ((propagate_role_change fp entries s src ts newRole).1).get_unsaved_entry
      fp src = s.get_unsaved_entry fp src := by
  unfold propagate_role_change
  exact propagateAux_sess_src fp ts newRole src entries 0 s 0

theorem foldl_stored_keep {γ : Type} (fp : String) (index : Nat)
    (stepS : (EditSession × Entry) → γ → EditSession × Entry)
    (hstep : ∀ se c, ((stepS se c).1).get_unsaved_entry fp index =
      some (stepS se c).2) (l : List γ) :
    ∀ se, (se.1).get_unsaved_entry fp index = some se.2 →
      ((l.foldl stepS se).1).get_unsaved_entry fp index =
        some (l.foldl stepS se).2 := by
  induction l with
  | nil =>
      intro se h
      exact h
  | cons c rest ih =>
      intro se h
      rw [List.foldl_cons]
      exact ih (stepS se c) (hstep se c)

theorem applySlotsS_stored (fp : String) (index : Nat)
    (upd : List (String × Json)) (h : upd ≠ []) (se : EditSession × Entry) :
    ((applySlotsS fp index upd se).1).get_unsaved_entry fp index =
      some (applySlotsS fp index upd se).2 := by
  unfold applySlotsS
  cases upd with
  | nil => exact absurd rfl h
  | cons kv rest =>
      rw [List.foldl_cons]
      exact foldl_stored_keep fp index _
        (fun se2 c => get_unsaved_record_change_self _ _ _ _ _ _ _ _) rest _
        (get_unsaved_record_change_self _ _ _ _ _ _ _ _)

theorem applyEvidenceS_stored (fp : String) (index : Nat)
    (upd : List (String × Json)) (h : upd ≠ []) (se : EditSession × Entry) :
    ((applyEvidenceS fp index upd se).1).get_unsaved_entry fp index =
      some (applyEvidenceS fp index upd se).2 := by
  unfold applyEvidenceS
  cases upd with
  | nil => exact absurd rfl h
  | cons kv rest =>
      rw [List.foldl_cons]
      exact foldl_stored_keep fp index _
        (fun se2 c => get_unsaved_record_change_self _ _ _ _ _ _ _ _) rest _
        (get_unsaved_record_change_self _ _ _ _ _ _ _ _)

theorem applyIntentionsS_stored (fp : String) (index : Nat)
    (ints : List String) (se : EditSession × Entry) :
    ((applyIntentionsS fp index ints se).1).get_unsaved_entry fp index =
      some (applyIntentionsS fp index ints se).2 :=
  get_unsaved_record_change_self _ _ _ _ _ _ _ _

theorem applyQaHintS_stored (fp : String) (index : Nat) (v : String)
    (se : EditSession × Entry) :
    ((applyQaHintS fp index v se).1).get_unsaved_entry fp index =
      some (applyQaHintS fp index v se).2 :=
  get_unsaved_record_change_self _ _ _ _ _ _ _ _

theorem applyReviewedS_stored (fp : String) (index : Nat) (b : Bool)
    (se : EditSession × Entry) :
    ((applyReviewedS fp index b se).1).get_unsaved_entry fp index =
      some (applyReviewedS fp index b se).2 :=
  get_unsaved_record_change_self _ _ _ _ _ _ _ _

theorem applyMessageRoleS_stored (fp : String) (entries : List Entry)
    (index : Nat) (role : String) (se : EditSession × Entry) :
    ((applyMessageRoleS fp entries index role se).1).get_unsaved_entry fp
      index = some (applyMessageRoleS fp entries index role se).2.1 := by
  simp only [applyMessageRoleS]
  split
  · rw [propagate_sess_src]
    exact get_unsaved_record_change_self _ _ _ _ _ _ _ _
  · exact get_unsaved_record_change_self _ _ _ _ _ _ _ _

theorem ctxUpdateStepS_stored_or (fp : String) (entries : List Entry)
    (index : Nat) (acc : EditSession × Entry × Nat) (cu : Entry) :
    (((ctxUpdateStepS fp entries index acc cu).1).get_unsaved_entry fp index
        = some (ctxUpdateStepS fp entries index acc cu).2.1) ∨
      ctxUpdateStepS fp entries index acc cu = acc := by
  simp only [ctxUpdateStepS]
  split
  · split
    · split
      · left
        rw [propagate_sess_src]
        exact get_unsaved_record_change_self _ _ _ _ _ _ _ _
      · left
        exact get_unsaved_record_change_self _ _ _ _ _ _ _ _
    · exact Or.inr rfl
  · exact Or.inr rfl

/-- Invariant tying the session's buffered value at the patched key to the
entry the axes have built so far: either some axis already recorded the
current entry under the key, or nothing was recorded yet and the entry is
still the base. -/
def StoredInv (fp : String) (index : Nat) (s0 : EditSession) (e0 : Entry)
    (s1 : EditSession) (e1 : Entry) : Prop :=
  s1.get_unsaved_entry fp index = some e1 ∨
  (s1.get_unsaved_entry fp index = s0.get_unsaved_entry fp index ∧ e1 = e0)

theorem applyCtxUpdatesS_inv (fp : String) (entries : List Entry)
    (index : Nat) (cus : List Entry) (s0 : EditSession) (e0 : Entry) :
    ∀ acc, StoredInv fp index s0 e0 acc.1 acc.2.1 →
      StoredInv fp index s0 e0
        (applyCtxUpdatesS fp entries index cus acc).1
        (applyCtxUpdatesS fp entries index cus acc).2.1 := by
  induction cus with
  | nil =>
      intro acc h
      exact h
  | cons cu rest ih =>
      intro acc h
      unfold applyCtxUpdatesS at *
      rw [List.foldl_cons]
      apply ih
      rcases ctxUpdateStepS_stored_or fp entries index acc cu with h2 | h2
      · exact Or.inl h2
      · rw [h2]
        exact h

theorem patchAxesS_inv (fp : String) (entries : List Entry) (index : Nat)
    (u : EntryUpdate) (s : EditSession) (entry : Entry)
    (hs : u.slots ≠ some []) (he : u.evidence ≠ some []) :
    StoredInv fp index s entry (patchAxesS fp entries index u s entry).1
      (patchAxesS fp entries index u s entry).2.1 := by
  obtain ⟨os, oe, oi, oq, orv, omr, oc⟩ := u
  cases omr with
  | some role => exact Or.inl (applyMessageRoleS_stored fp entries index role _)
  | none =>
      cases orv with
      | some b => exact Or.inl (applyReviewedS_stored fp index b _)
      | none =>
          cases oq with
          | some v => exact Or.inl (applyQaHintS_stored fp index v _)
          | none =>
              cases oi with
              | some ints =>
                  exact Or.inl (applyIntentionsS_stored fp index ints _)
              | none =>
                  cases oe with
                  | some upd =>
                      exact Or.inl (applyEvidenceS_stored fp index upd
                        (fun h0 => he (by rw [h0])) _)
                  | none =>
                      cases os with
                      | some upd =>
                          exact Or.inl (applySlotsS_stored fp index upd
                            (fun h0 => hs (by rw [h0])) _)
                      | none => exact Or.inr ⟨rfl, rfl⟩

theorem patch_entry_effective (fp : String) (entries : List Entry)
    (index : Nat) (u : EntryUpdate) (s : EditSession)
    (hs : u.slots ≠ some []) (he : u.evidence ≠ some []) :
    effectiveEntry (patch_entry fp entries index u s).1 fp index entries =
      patchPure u (effectiveEntry s fp index entries) := by
  have hinv : StoredInv fp index s (effectiveEntry s fp index entries)
      (patch_entry fp entries index u s).1
      (patch_entry fp entries index u s).2.1 := by
    unfold patch_entry
    cases hc : u.context_updates with
    | none => exact patchAxesS_inv fp entries index u s _ hs he
    | some cus =>
        exact applyCtxUpdatesS_inv fp entries index cus s _ _
          (patchAxesS_inv fp entries index u s _ hs he)
  rcases hinv with h | ⟨h1, h2⟩
  · rw [← patch_entry_entry fp entries index u s]
    unfold effectiveEntry
    rw [h]
  · have h3 : patchPure u (effectiveEntry s fp index entries) =
        effectiveEntry s fp index entries := by
      rw [← patch_entry_entry fp entries index u s, h2]
    rw [h3]
    unfold effectiveEntry
    rw [h1]

/-- C1: patching the same `(collection, position)` repeatedly coalesces in
the session — after any sequence of PATCH calls the effective record (the
buffered override when present, else the disk record) is the base record
with every patch's record-transform applied in order, and whatever record
the session buffers under that key is exactly that cumulative record.  The
hypothesis excludes payloads carrying an explicitly empty `slots` or
`evidence` map (Python then touches the record's lazily-created skeleton
without recording a change, so nothing reaches the session by design). -/
theorem patch_coalescing (fp : String) (entries : List Entry) (index : Nat)
    (us : List EntryUpdate) (s : EditSession)
    (hne : ∀ u ∈ us, u.slots ≠ some [] ∧ u.evidence ≠ some []) :
    effectiveEntry
        (us.foldl (fun st u => (patch_entry fp entries index u st).1) s)
        fp index entries =
      us.foldl (fun e u => patchPure u e)
        (effectiveEntry s fp index entries) ∧
    ∀ e2, (us.foldl (fun st u => (patch_entry fp entries index u st).1)
        s).get_unsaved_entry fp index = some e2 →
      e2 = us.foldl (fun e u => patchPure u e)
        (effectiveEntry s fp index entries) := by
  have hmain : ∀ (s : EditSession),
      (∀ u ∈ us, u.slots ≠ some [] ∧ u.evidence ≠ some []) →
      effectiveEntry
          (us.foldl (fun st u => (patch_entry fp entries index u st).1) s)
          fp index entries =
        us.foldl (fun e u => patchPure u e)
          (effectiveEntry s fp index entries) := by
    induction us with
    | nil =>
        intro s _
        rfl
    | cons u rest ih =>
        intro s hne2
        rw [List.foldl_cons, List.foldl_cons,
          ← patch_entry_effective fp entries index u s
            (hne2 u (List.mem_cons_self u rest)).1
            (hne2 u (List.mem_cons_self u rest)).2]
        exact ih (fun u2 hu2 => hne2 u2 (List.mem_cons_of_mem u hu2))
          ((patch_entry fp entries index u s).1)
          (fun u2 hu2 => hne2 u2 (List.mem_cons_of_mem u hu2))
  refine ⟨hmain s hne, ?_⟩
  intro e2 hst
  have h4 := hmain s hne
  unfold effectiveEntry at h4
  rw [hst] at h4
  exact h4

/-- A base record for the coalescing witness. -/
def coRec : Entry :=
  [("id", Json.str "a"),
   ("gold", Json.obj [("slots", Json.obj [("treatment", Json.null)])]),
   ("reviewed", Json.bool false)]

/-- A slots patch for the witness (the spec's comma-splitting example). -/
def coUpdHair : EntryUpdate :=
  { slots := some [("hair_removal_areas", Json.str "legs, arms, chest")] }

/-- A qa-hint patch for the witness. -/
def coUpdQa : EntryUpdate := { qa_hint := some "check me" }

/-- Witness for `patch_coalescing`: two successive patches to position 0
coalesce into one override holding the cumulative record. -/
theorem patch_coalescing_witness :
    effectiveEntry
        ([coUpdHair, coUpdQa].foldl
          (fun st u => (patch_entry "f" [coRec] 0 u st).1) ⟨[], [], 100⟩)
        "f" 0 [coRec] =
      [coUpdHair, coUpdQa].foldl (fun e u => patchPure u e)
        (effectiveEntry ⟨[], [], 100⟩ "f" 0 [coRec]) :=
  (patch_coalescing "f" [coRec] 0 [coUpdHair, coUpdQa] ⟨[], [], 100⟩
    (by decide)).1

theorem ctxListOf_dictSet_ne (e : Entry) (k : String) (v : Json)
    (h : k ≠ "context") : ctxListOf (dictSet e k v) = ctxListOf e := by
  unfold ctxListOf pyGetD
  rw [dictGet?_dictSet_ne e k "context" v (Ne.symm h)]

theorem ctxListOf_ensureGold (e : Entry) :
    ctxListOf (ensureGold e) = ctxListOf e := by
  unfold ensureGold
  split
  · rfl
  · exact ctxListOf_dictSet_ne e "gold" _ (by decide)

theorem ctxListOf_ensureGoldKey (e : Entry) (key : String) :
    ctxListOf (ensureGoldKey e key) = ctxListOf e := by
  unfold ensureGoldKey
  split
  · split
    · rfl
    · exact ctxListOf_dictSet_ne e "gold" _ (by decide)
  · rfl

theorem ctxListOf_goldSubSet (e : Entry) (sub name : String) (v : Json) :
    ctxListOf (goldSubSet e sub name v) = ctxListOf e := by
  unfold goldSubSet
  split
  · split
    · exact ctxListOf_dictSet_ne e "gold" _ (by decide)
    · rfl
  · rfl

theorem ctxListOf_goldSet (e : Entry) (k : String) (v : Json) :
    ctxListOf (goldSet e k v) = ctxListOf e := by
  unfold goldSet
  split
  · exact ctxListOf_dictSet_ne e "gold" _ (by decide)
  · rfl

theorem ctxListOf_ensureMessage (e : Entry) (role : String) :
    ctxListOf (ensureMessage e role) = ctxListOf e := by
  unfold ensureMessage
  split
  · rfl
  · exact ctxListOf_dictSet_ne e "message" _ (by decide)

theorem ctxListOf_foldl {γ : Type} (step : Entry → γ → Entry)
    (hstep : ∀ e c, ctxListOf (step e c) = ctxListOf e) (l : List γ) :
    ∀ e, ctxListOf (l.foldl step e) = ctxListOf e := by
  induction l with
  | nil =>
      intro e
      rfl
  | cons c rest ih =>
      intro e
      rw [List.foldl_cons, ih, hstep]

theorem ctxListOf_applySlotsP (upd : List (String × Json)) (e : Entry) :
    ctxListOf (applySlotsP upd e) = ctxListOf e := by
  unfold applySlotsP
  rw [ctxListOf_foldl slotsStepP
    (fun e2 c => ctxListOf_goldSubSet e2 "slots" c.1 _) upd _]
  rw [ctxListOf_ensureGoldKey, ctxListOf_ensureGold]

theorem ctxListOf_applyEvidenceP (upd : List (String × Json)) (e : Entry) :
    ctxListOf (applyEvidenceP upd e) = ctxListOf e := by
  unfold applyEvidenceP
  rw [ctxListOf_foldl evidenceStepP
    (fun e2 c => ctxListOf_goldSubSet e2 "evidence" c.1 _) upd _]
  rw [ctxListOf_ensureGoldKey, ctxListOf_ensureGold]

theorem ctxListOf_applyIntentionsP (ints : List String) (e : Entry) :
    ctxListOf (applyIntentionsP ints e) = ctxListOf e := by
  unfold applyIntentionsP
  rw [ctxListOf_goldSet, ctxListOf_ensureGold]

theorem ctxListOf_applyMessageRoleP (role : String) (e : Entry) :
    ctxListOf (applyMessageRoleP role e) = ctxListOf e := by
  unfold applyMessageRoleP
  rw [ctxListOf_setMessageRole, ctxListOf_ensureMessage]

theorem ctxListOf_patchAxesP (u : EntryUpdate) (e : Entry) :
    ctxListOf (patchAxesP u e) = ctxListOf e := by
  obtain ⟨os, oe, oi, oq, orv, omr, oc⟩ := u
  cases os <;> cases oe <;> cases oi <;> cases oq <;> cases orv <;>
    cases omr <;>
    simp [patchAxesP, ctxListOf_applySlotsP, ctxListOf_applyEvidenceP,
      ctxListOf_applyIntentionsP, ctxListOf_applyMessageRoleP,
      ctxListOf_dictSet_ne]

theorem ctxListOf_of_context_arr (e : Entry) (xs : List Json)
    (h : dictGet? e "context" = some (Json.arr xs)) : ctxListOf e = xs := by
  unfold ctxListOf pyGetD
  rw [h]
  rfl

theorem ctxListOf_setContextRole_length (e : Entry) (i : Nat) (r : Json) :
    (ctxListOf (setContextRole e i r)).length = (ctxListOf e).length := by
  unfold setContextRole
  split
  · rename_i xs hxs
    split
    · rename_i kvs hkvs
      have h1 : ctxListOf e = xs := ctxListOf_of_context_arr e xs hxs
      have h2 : ctxListOf (dictSet e "context"
          (Json.arr (xs.set i (Json.obj (dictSet kvs "role" r))))) =
          xs.set i (Json.obj (dictSet kvs "role" r)) := by
        unfold ctxListOf pyGetD
        rw [dictGet?_dictSet_self]
        rfl
      rw [h2, h1, List.length_set]
    · rfl
  · rfl

theorem ctxUpdateStepP_ctxLen (e : Entry) (cu : Entry) :
    (ctxListOf (ctxUpdateStepP e cu)).length = (ctxListOf e).length := by
  unfold ctxUpdateStepP
  split
  · split
    · exact ctxListOf_setContextRole_length _ _ _
    · rfl
  · rfl

theorem ctxUpdateStepS_ctxLen (fp : String) (entries : List Entry)
    (index : Nat) (acc : EditSession × Entry × Nat) (cu : Entry) :
    (ctxListOf (ctxUpdateStepS fp entries index acc cu).2.1).length =
      (ctxListOf acc.2.1).length := by
  rw [ctxUpdateStepS_snd]
  exact ctxUpdateStepP_ctxLen _ _

theorem applyCtxUpdatesS_skip (fp : String) (entries : List Entry)
    (index : Nat) (cus1 : List Entry) :
    ∀ (acc : EditSession × Entry × Nat) (cu : Entry) (cus2 : List Entry)
      (n : Int), pyGet cu "index" = Json.num n →
      ¬ (0 ≤ n ∧ n.toNat < (ctxListOf acc.2.1).length) →
      applyCtxUpdatesS fp entries index (cus1 ++ cu :: cus2) acc =
        applyCtxUpdatesS fp entries index (cus1 ++ cus2) acc := by
  induction cus1 with
  | nil =>
      intro acc cu cus2 n hidx hoob
      unfold applyCtxUpdatesS
      rw [List.nil_append, List.nil_append, List.foldl_cons]
      have hstep : ctxUpdateStepS fp entries index acc cu = acc := by
        simp only [ctxUpdateStepS]
        split
        · rename_i n2 hn2
          rw [hidx] at hn2
          injection hn2 with hn3
          subst hn3
          rw [if_neg (fun hcon => hoob ⟨hcon.2.1, hcon.2.2⟩)]
        · rfl
      rw [hstep]
  | cons c0 rest ih =>
      intro acc cu cus2 n hidx hoob
      unfold applyCtxUpdatesS at ih ⊢
      rw [List.cons_append, List.foldl_cons, List.cons_append,
        List.foldl_cons]
      apply ih
      · exact hidx
      · rw [ctxUpdateStepS_ctxLen]
        exact hoob

/-- C8: a context-role update whose integer target index falls outside the
record's current context bounds is silently dropped — the whole PATCH
computes exactly as if that update were absent from the list: no error
(the model is total where Python's guard skips), no record or session
change from it, no history entry, and every other update in the same call
still applies. -/
theorem patch_ctx_oob_skipped (fp : String) (entries : List Entry)
    (index : Nat) (s : EditSession) (u : EntryUpdate)
    (cus1 cus2 : List Entry) (cu : Entry) (n : Int)
    (hcu : u.context_updates = some (cus1 ++ cu :: cus2))
    (hidx : pyGet cu "index" = Json.num n)
    (hoob : ¬ (0 ≤ n ∧ n.toNat <
      (ctxListOf (effectiveEntry s fp index entries)).length)) :
    patch_entry fp entries index u s =
      patch_entry fp entries index
        { u with context_updates := some (cus1 ++ cus2) } s := by
  obtain ⟨os, oe, oi, oq, orv, omr, oc⟩ := u
  simp only at hcu
  subst hcu
  show applyCtxUpdatesS fp entries index (cus1 ++ cu :: cus2)
      (patchAxesS fp entries index
        ⟨os, oe, oi, oq, orv, omr, some (cus1 ++ cu :: cus2)⟩ s
        (effectiveEntry s fp index entries)) =
    applyCtxUpdatesS fp entries index (cus1 ++ cus2)
      (patchAxesS fp entries index
        ⟨os, oe, oi, oq, orv, omr, some (cus1 ++ cus2)⟩ s
        (effectiveEntry s fp index entries))
  have haxes : patchAxesS fp entries index
      ⟨os, oe, oi, oq, orv, omr, some (cus1 ++ cus2)⟩ s
      (effectiveEntry s fp index entries) =
      patchAxesS fp entries index
      ⟨os, oe, oi, oq, orv, omr, some (cus1 ++ cu :: cus2)⟩ s
      (effectiveEntry s fp index entries) := rfl
  rw [haxes]
  apply applyCtxUpdatesS_skip fp entries index cus1 _ cu cus2 n hidx
  rw [patchAxesS_snd, ctxListOf_patchAxesP]
  exact hoob

/-- Record with a one-element context for the out-of-bounds witness. -/
def oobRec : Entry :=
  [("id", Json.str "a"),
   ("context", Json.arr [Json.obj
     [("role", Json.str "client"), ("ts_ms", Json.num 5)]])]

/-- A context update aimed past the end of the context array. -/
def oobUpd : Entry :=
  [("index", Json.num 5), ("role", Json.str "brand")]

/-- Witness for `patch_ctx_oob_skipped`: the out-of-bounds update makes the
PATCH equal to the same PATCH without it. -/
theorem patch_ctx_oob_skipped_witness :
    patch_entry "f" [oobRec] 0
        { context_updates := some ([] ++ oobUpd :: []) } ⟨[], [], 100⟩ =
      patch_entry "f" [oobRec] 0
        { context_updates := some ([] ++ []) } ⟨[], [], 100⟩ :=
  patch_ctx_oob_skipped "f" [oobRec] 0 ⟨[], [], 100⟩
    { context_updates := some ([] ++ oobUpd :: []) } [] [] oobUpd 5 rfl
    (by decide) (by decide)

/-!
Reference-semantics machine.  The value model above renders
`disk_entry.copy()` as a value copy; CPython's `dict.copy()` is shallow: it
creates a fresh top-level dict whose values are the same object references,
so the nested `message` dict and `context` list of the copy stay shared
with the disk-read record.  To settle whether the propagation engine
mutates disk-read records in place, `_propagate_role_change` is re-embedded
below over an explicit heap: scalars are immutable values, every dict or
list is a heap reference, `json.loads` allocates fresh objects per record,
and the in-place assignments write through references.
-/

/-- Python runtime value: immutable scalar, or a reference to a heap
object. -/
inductive PVal : Type where
  | null : PVal
  | bool (b : Bool) : PVal
  | num (n : Int) : PVal
  | str (s : String) : PVal
  | ref (r : Nat) : PVal
deriving Repr, DecidableEq

/-- A heap object: a Python dict or a Python list. -/
inductive PObj : Type where
  | dict (kvs : List (String × PVal)) : PObj
  | list (xs : List PVal) : PObj
deriving Repr, DecidableEq

/-- The object heap, addressed by allocation order. -/
structure PHeap where
  objs : List PObj
deriving Repr, DecidableEq

/-- Allocate a fresh object, returning its reference. -/
def pAlloc (h : PHeap) (o : PObj) : PHeap × Nat :=
  (⟨h.objs ++ [o]⟩, h.objs.length)

/-- Dereference (total here; every reference the runs below produce is
valid). -/
def pDeref (h : PHeap) (r : Nat) : PObj :=
  h.objs.getD r (PObj.dict [])

/-- Overwrite the object behind a reference (in-place mutation). -/
def pUpdate (h : PHeap) (r : Nat) (o : PObj) : PHeap :=
  ⟨h.objs.set r o⟩

/-- Assoc-list lookup for dict objects (Python dicts, unique keys). -/
def pKvGet? (kvs : List (String × PVal)) (k : String) : Option PVal :=
  match kvs with
  | [] => none
  | (k2, v) :: rest => if k2 = k then some v else pKvGet? rest k

/-- Assoc-list assignment for dict objects. -/
def pKvSet (kvs : List (String × PVal)) (k : String) (v : PVal) :
    List (String × PVal) :=
  match kvs with
  | [] => [(k, v)]
  | (k2, v2) :: rest =>
      if k2 = k then (k, v) :: rest else (k2, v2) :: pKvSet rest k v

mutual
/-- `json.loads` for one value: scalars stay values, every container
allocates a fresh heap object (no sharing between parsed records). -/
def allocJson : PHeap → Json → PHeap × PVal
  | h, Json.null => (h, PVal.null)
  | h, Json.bool b => (h, PVal.bool b)
  | h, Json.num n => (h, PVal.num n)
  | h, Json.str s => (h, PVal.str s)
  | h, Json.arr xs =>
      let hv := allocJsonList h xs
      let hr := pAlloc hv.1 (PObj.list hv.2)
      (hr.1, PVal.ref hr.2)
  | h, Json.obj kvs =>
      let hv := allocJsonFields h kvs
      let hr := pAlloc hv.1 (PObj.dict hv.2)
      (hr.1, PVal.ref hr.2)

/-- Allocate a list of JSON values in order. -/
def allocJsonList : PHeap → List Json → PHeap × List PVal
  | h, [] => (h, [])
  | h, x :: rest =>
      let hv := allocJson h x
      let hrest := allocJsonList hv.1 rest
      (hrest.1, hv.2 :: hrest.2)

/-- Allocate an object's fields in order. -/
def allocJsonFields :
    PHeap → List (String × Json) → PHeap × List (String × PVal)
  | h, [] => (h, [])
  | h, (k, v) :: rest =>
      let hv := allocJson h v
      let hrest := allocJsonFields hv.1 rest
      (hrest.1, (k, hv.2) :: hrest.2)
end

/-- `read_jsonl`: parse each line into a freshly allocated record. -/
def pReadJsonl (h : PHeap) : List Json → PHeap × List PVal :=
  allocJsonList h

/-- Python `x.get(k)` on a dict reference (`None` when absent or when `x`
is not a dict). -/
def pGet (h : PHeap) (v : PVal) (k : String) : PVal :=
  match v with
  | PVal.ref r =>
      match pDeref h r with
      | PObj.dict kvs => (pKvGet? kvs k).getD PVal.null
      | PObj.list _ => PVal.null
  | _ => PVal.null

/-- Python `isinstance(x, dict)`. -/
def pIsDict (h : PHeap) (v : PVal) : Bool :=
  match v with
  | PVal.ref r =>
      match pDeref h r with
      | PObj.dict _ => true
      | PObj.list _ => false
  | _ => false

/-- Python `x[k] = nv` on a dict reference: in-place member write, visible
through every alias of the object. -/
def pSetKey (h : PHeap) (v : PVal) (k : String) (nv : PVal) : PHeap :=
  match v with
  | PVal.ref r =>
      match pDeref h r with
      | PObj.dict kvs => pUpdate h r (PObj.dict (pKvSet kvs k nv))
      | PObj.list _ => h
  | _ => h

/-- Python `d.copy()`: a SHALLOW copy — a fresh top-level dict holding the
same value references, nested objects shared with the original. -/
def pShallowCopy (h : PHeap) (v : PVal) : PHeap × PVal :=
  match v with
  | PVal.ref r =>
      let hr := pAlloc h (pDeref h r)
      (hr.1, PVal.ref hr.2)
  | _ => (h, v)

/-- The elements Python's `enumerate(entry.get("context", []))` walks over
(a missing or non-list `context` yields nothing relevant, as in the value
model). -/
def pCtxItems (h : PHeap) (entry : PVal) : List PVal :=
  match pGet h entry "context" with
  | PVal.ref r =>
      match pDeref h r with
      | PObj.list xs => xs
      | PObj.dict _ => []
  | _ => []

/-- The session of the reference machine; the undo stack is irrelevant to
the mutation question, so only the unsaved-overrides dict is carried
(values are object references, as in Python). -/
structure PSession where
  unsaved_changes : List ((String × Nat) × PVal) := []
deriving Repr, DecidableEq

/-- Session lookup. -/
def pSessGet? (m : List ((String × Nat) × PVal)) (k : String × Nat) :
    Option PVal :=
  match m with
  | [] => none
  | (k2, v) :: rest => if k2 = k then some v else pSessGet? rest k

/-- Session assignment (`record_change`'s `unsaved_changes[key] = entry`;
the appended undo entry does not touch the heap or the overrides). -/
def pSessSet (m : List ((String × Nat) × PVal)) (k : String × Nat)
    (v : PVal) : List ((String × Nat) × PVal) :=
  match m with
  | [] => [(k, v)]
  | (k2, v2) :: rest =>
      if k2 = k then (k, v) :: rest else (k2, v2) :: pSessSet rest k v

/-- Context loop of `_propagate_role_change` on the reference machine:
`entry["context"][ctx_idx]["role"] = new_role` writes through the shared
element object. -/
def pSyncCtx (fp : String) (idx : Nat) (ts newRole : PVal) (entry : PVal) :
    List PVal → Nat → PHeap → PSession → Bool → PHeap × PSession × Bool
  | [], _, h, s, m => (h, s, m)
  | c :: rest, i, h, s, m =>
      if pIsDict h c = true ∧ pGet h c "ts_ms" = ts then
        if pGet h c "role" ≠ newRole then
          let h2 := pSetKey h c "role" newRole
          let s2 : PSession :=
            ⟨pSessSet s.unsaved_changes (fp, idx) entry⟩
          pSyncCtx fp idx ts newRole entry rest (i + 1) h2 s2 true
        else pSyncCtx fp idx ts newRole entry rest (i + 1) h s m
      else pSyncCtx fp idx ts newRole entry rest (i + 1) h s m

/-- One candidate of `_propagate_role_change` on the reference machine.
Python's `entry.get("message", default-empty-dict)` is rendered as the stored value
(`null` when absent): for a non-null join key the absent-key case fails the
`ts_ms` comparison either way, which is the only regime the engine is
invoked in (`ts_ms is not None` at the call site). -/
def pSyncOne (fp : String) (idx : Nat) (ts newRole : PVal) (h : PHeap)
    (s : PSession) (entry : PVal) : PHeap × PSession × Bool :=
  let msg := pGet h entry "message"
  let step1 : PHeap × PSession × Bool :=
    if pIsDict h msg = true ∧ pGet h msg "ts_ms" = ts then
      if pGet h msg "role" ≠ newRole then
        (pSetKey h (pGet h entry "message") "role" newRole,
         ⟨pSessSet s.unsaved_changes (fp, idx) entry⟩, true)
      else (h, s, false)
    else (h, s, false)
  let r2 := pSyncCtx fp idx ts newRole entry
    (pCtxItems step1.1 entry) 0 step1.1 step1.2.1 step1.2.2
  r2

/-- The candidate loop of `_propagate_role_change` on the reference
machine: session override if present, else a shallow copy of the disk
record. -/
def pPropagateAux (fp : String) (ts newRole : PVal) (sourceIdx : Nat) :
    List PVal → Nat → PHeap → PSession → Nat → PHeap × PSession × Nat
  | [], _, h, s, count => (h, s, count)
  | dref :: rest, idx, h, s, count =>
      if idx = sourceIdx then
        pPropagateAux fp ts newRole sourceIdx rest (idx + 1) h s count
      else
        let he : PHeap × PVal :=
          match pSessGet? s.unsaved_changes (fp, idx) with
          | some e => (h, e)
          | none => pShallowCopy h dref
        let r := pSyncOne fp idx ts newRole he.1 s he.2
        pPropagateAux fp ts newRole sourceIdx rest (idx + 1) r.1 r.2.1
          (if r.2.2 then count + 1 else count)

/-- `_propagate_role_change` on the reference machine. -/
def pPropagate (fp : String) (entries : List PVal) (h : PHeap)
    (s : PSession) (sourceIdx : Nat) (ts newRole : PVal) :
    PHeap × PSession × Nat :=
  pPropagateAux fp ts newRole sourceIdx entries 0 h s 0

/-- Two records sharing `ts_ms = 1000`, as their JSONL lines parse. -/
def mutLine0 : Json :=
  Json.obj [("id", Json.str "a"),
    ("message", Json.obj [("role", Json.str "client"),
      ("text", Json.str "hi"), ("ts_ms", Json.num 1000)])]

/-- The sibling record the propagation will reach. -/
def mutLine1 : Json :=
  Json.obj [("id", Json.str "b"),
    ("message", Json.obj [("role", Json.str "client"),
      ("text", Json.str "yo"), ("ts_ms", Json.num 1000)])]

/-- The heap and record references `read_jsonl` yields for the two
lines. -/
def mutLoaded : PHeap × List PVal := pReadJsonl ⟨[]⟩ [mutLine0, mutLine1]

/-- Propagating role `"brand"` from record 0 with an empty session. -/
def mutRun : PHeap × PSession × Nat :=
  pPropagate "f" mutLoaded.2 mutLoaded.1 ⟨[]⟩ 0 (PVal.num 1000)
    (PVal.str "brand")

/-- C3 (refuting evaluation): under Python reference semantics the
propagation engine mutates the disk-read record in place.  Candidate 1 is
resolved as `disk_entry.copy()` — a shallow copy whose nested `message`
dict is shared with the disk record — and the role assignment writes
through that shared dict: reading record 1 via the reference `read_jsonl`
returned shows role `"client"` before the call and `"brand"` after it,
so the disk-read list is NOT unchanged (the session override aliases the
same mutated object rather than carrying the only copy of the new role). -/
theorem propagate_mutates_disk_in_place :
    pGet mutLoaded.1
      (pGet mutLoaded.1 (mutLoaded.2.getD 1 PVal.null) "message") "role" =
      PVal.str "client" ∧
    pGet mutRun.1
      (pGet mutRun.1 (mutLoaded.2.getD 1 PVal.null) "message") "role" =
      PVal.str "brand" ∧
    mutRun.2.2 = 1 := by
  refine ⟨rfl, rfl, rfl⟩

/-!
File-identifier resolution (`get_file_by_id` in `storage/indexer.py`).
Absolute paths are component lists; `Path.resolve` normalizes `.` and `..`
textually (symlinks aside); the roots arrive resolved, as the code resolves
them on entry, and existence consults the resolved path (the OS resolves
`..` during lookup).  The function returns the resolved path of the file
it serves.
-/

/-- Textual `Path.resolve` on an absolute path: `.` is dropped, `..` pops
(popping at the root stays at the root). -/
def resolvePath (p : List String) : List String :=
  p.foldl (fun acc c =>
    if c = "." then acc
    else if c = ".." then acc.dropLast
    else acc ++ [c]) []

/-- Python `file_id.replace("__", "/")` at the character level (left to
right, non-overlapping). -/
def decodeSep : List Char → List Char
  | [] => []
  | '_' :: '_' :: rest => '/' :: decodeSep rest
  | c :: rest => c :: decodeSep rest

/-- Splitting a character sequence on `/` (how `pathlib` parses the
relative path the decoded identifier denotes). -/
def splitSlashAux (acc : List Char) : List Char → List (List Char)
  | [] => [acc.reverse]
  | c :: rest =>
      if c = '/' then acc.reverse :: splitSlashAux [] rest
      else splitSlashAux (c :: acc) rest

/-- `str(Path(...))` for an absolute path, as its character sequence. -/
def renderPath (p : List String) : List Char :=
  '/' :: List.intercalate ['/'] (p.map String.data)

/-- The set of existing files, by resolved absolute path. -/
structure PathFS where
  files : List (List String)
deriving Repr, DecidableEq

/-- Existence test. -/
def fileExists (fs : PathFS) (p : List String) : Bool :=
  fs.files.contains p

/-- Whether `p` really lies inside the directory `root` (component-wise). -/
def underRoot (root p : List String) : Bool :=
  p.take root.length == root

/-- `get_file_by_id` from `storage/indexer.py`: decode the identifier by
turning every `__` into `/`, try the reviewed root first and the primary
root second, answering `none` when the file is absent or when the
traversal guard `str(path.resolve()).startswith(str(root))` fails. -/
def get_file_by_id (fs : PathFS) (root : List String) (file_id : String)
    (reviewed_root : Option (List String)) : Option (List String) :=
  let relative_path :=
    (splitSlashAux [] (decodeSep file_id.data)).map String.mk
  match reviewed_root with
  | some rr =>
      let reviewed_resolved := resolvePath (rr ++ relative_path)
      if fileExists fs reviewed_resolved then
        if (renderPath rr).isPrefixOf (renderPath reviewed_resolved) then
          some reviewed_resolved
        else none
      else
        let path_resolved := resolvePath (root ++ relative_path)
        if fileExists fs path_resolved then
          if (renderPath root).isPrefixOf (renderPath path_resolved) then
            some path_resolved
          else none
        else none
  | none =>
      let path_resolved := resolvePath (root ++ relative_path)
      if fileExists fs path_resolved then
        if (renderPath root).isPrefixOf (renderPath path_resolved) then
          some path_resolved
        else none
      else none

/-- C9 (refuting evaluation): the traversal guard is a bare string-prefix
test without a separator check, so an identifier that climbs out of
`/data` into the sibling directory `/database` — whose rendering extends
the root's rendering as a string — is served rather than rejected: the
returned path is not under the configured root (nor under any reviewed
root; none is configured here), against both the claim and the code's own
`prevent path traversal` comment. -/
theorem get_file_by_id_escapes_root :
    get_file_by_id ⟨[["database", "f.jsonl"]]⟩ ["data"]
        "..__database__f.jsonl" none = some ["database", "f.jsonl"] ∧
    (renderPath ["data"]).isPrefixOf (renderPath ["database", "f.jsonl"]) =
      true ∧
    underRoot ["data"] ["database", "f.jsonl"] = false := by
  refine ⟨?_, ?_, ?_⟩ <;> decide

end GoldEditor
